import Mathlib

set_option maxRecDepth 4000

/-! Verification development for the NMEA-to-GPX converter (src/converter.js).

The JavaScript source is shallowly embedded as executable Lean definitions:

* IEEE-754 doubles are idealized as exact rationals, extended with explicit
  NaN and signed-infinity markers (`JsNum`);
* a JS `Date` is its millisecond-since-epoch time value, an `Option Int`
  where `none` stands for an Invalid Date (time value NaN);
* a JS `Map` keyed by the converter's whole-second time keys is an
  insertion-ordered association list with key type `Option Int`; the `none`
  key models the NaN key, which JS `Map` treats as a single key under
  SameValueZero, exactly as `none = none` here;
* `getDistance` (the Haversine formula) uses transcendental functions, so
  the pipeline is parameterized by an arbitrary distance function and the
  theorems quantify over it;
* host-specific pieces of `new Date(string)` parsing are restricted to the
  documented `YYYY-MM-DD HH:MM:SS` input format (see `parseJstToUtc`).
-/

/-! ### JS numbers -/

/-- A JavaScript number: NaN, +Infinity, -Infinity, or a finite value
(idealized as an exact rational). -/
inductive JsNum where
  | nan
  | inf
  | ninf
  | num (q : ℚ)
  deriving DecidableEq, Repr

/-- JS unary minus. -/
def jsNeg : JsNum → JsNum
  | .nan => .nan
  | .inf => .ninf
  | .ninf => .inf
  | .num q => .num (-q)

/-- JS addition on numbers. -/
def jsAdd : JsNum → JsNum → JsNum
  | .nan, _ => .nan
  | _, .nan => .nan
  | .inf, .ninf => .nan
  | .ninf, .inf => .nan
  | .inf, _ => .inf
  | _, .inf => .inf
  | .ninf, _ => .ninf
  | _, .ninf => .ninf
  | .num a, .num b => .num (a + b)

/-- JS multiplication on numbers (signed zeros are collapsed to 0). -/
def jsMul : JsNum → JsNum → JsNum
  | .nan, _ => .nan
  | _, .nan => .nan
  | .inf, .inf => .inf
  | .inf, .ninf => .ninf
  | .ninf, .inf => .ninf
  | .ninf, .ninf => .inf
  | .inf, .num b => if b = 0 then .nan else if 0 < b then .inf else .ninf
  | .num a, .inf => if a = 0 then .nan else if 0 < a then .inf else .ninf
  | .ninf, .num b => if b = 0 then .nan else if 0 < b then .ninf else .inf
  | .num a, .ninf => if a = 0 then .nan else if 0 < a then .ninf else .inf
  | .num a, .num b => .num (a * b)

/-- JS division on numbers (signed zeros are collapsed to 0). -/
def jsDiv : JsNum → JsNum → JsNum
  | .nan, _ => .nan
  | _, .nan => .nan
  | .inf, .inf => .nan
  | .inf, .ninf => .nan
  | .ninf, .inf => .nan
  | .ninf, .ninf => .nan
  | .inf, .num b => if 0 ≤ b then .inf else .ninf
  | .ninf, .num b => if 0 ≤ b then .ninf else .inf
  | .num _, .inf => .num 0
  | .num _, .ninf => .num 0
  | .num a, .num b =>
    if b = 0 then (if a = 0 then .nan else if 0 < a then .inf else .ninf)
    else .num (a / b)

/-- JS strict less-than on numbers (false whenever NaN is involved). -/
def jsLt : JsNum → JsNum → Bool
  | .nan, _ => false
  | _, .nan => false
  | .inf, _ => false
  | .ninf, .ninf => false
  | .ninf, _ => true
  | .num _, .inf => true
  | .num _, .ninf => false
  | .num a, .num b => decide (a < b)

/-- JS strict greater-than on numbers. -/
def jsGt (a b : JsNum) : Bool := jsLt b a

/-- Coerce a `parseInt` result (an integer or NaN) to a JS number. -/
def jsOfParseInt : Option Int → JsNum
  | none => .nan
  | some n => .num n

/-! ### JS string primitives -/

/-- The characters removed by `String.prototype.trim` and skipped by
`parseInt`/`parseFloat` (ASCII WhiteSpace and LineTerminator). -/
def isJsWhite (c : Char) : Bool :=
  c = ' ' || c = '\t' || c = '\n' || c = '\r' || c = '\x0b' || c = '\x0c'

/-- `String.prototype.trim`. -/
def jsTrim (s : String) : String :=
  String.mk (((s.data.dropWhile isJsWhite).reverse.dropWhile isJsWhite).reverse)

/-- `String.prototype.substring(a, b)` for `a ≤ b` (indices clamp to the
string length). -/
def jsSubstring (s : String) (a b : Nat) : String :=
  String.mk ((s.data.drop a).take (b - a))

/-- `String.prototype.substring(a)`: from index `a` to the end. -/
def jsSubstringFrom (s : String) (a : Nat) : String :=
  String.mk (s.data.drop a)

/-- `String.prototype.split` with a single-character separator, on
character lists: `splitOnChar sep l` always returns at least one (possibly
empty) piece, and empty pieces between adjacent separators are kept. -/
def splitOnChar (sep : Char) : List Char → List (List Char)
  | [] => [[]]
  | c :: rest =>
    match splitOnChar sep rest with
    | [] => [[c]]
    | h :: t => if c = sep then [] :: h :: t else (c :: h) :: t

/-- `String.prototype.split` with a single-character separator. -/
def jsSplit (s : String) (sep : Char) : List String :=
  (splitOnChar sep s.data).map String.mk

/-- Value of a list of decimal digits, most significant first. -/
def digitsToNat (l : List Char) : Nat :=
  l.foldl (fun a c => a * 10 + (c.toNat - 48)) 0

/-- Split an optional leading sign off a character list. -/
def signSplit : List Char → Int × List Char
  | '+' :: r => (1, r)
  | '-' :: r => (-1, r)
  | l => (1, l)

/-- `parseInt(s, 10)`: skip whitespace, optional sign, then the longest
leading run of decimal digits; NaN (`none`) if that run is empty. -/
def parseIntDec (s : String) : Option Int :=
  let l := s.data.dropWhile isJsWhite
  let sl := signSplit l
  let ds := sl.2.takeWhile Char.isDigit
  if ds.isEmpty then none else some (sl.1 * digitsToNat ds)

/-- `parseFloat(s)`: skip whitespace, optional sign, then the longest prefix
that is `Infinity` or a decimal literal `Digits [. Digits] [e Sign Digits]`;
NaN if there is no such prefix. -/
def parseFloatJs (s : String) : JsNum :=
  let l := s.data.dropWhile isJsWhite
  let sl := signSplit l
  if "Infinity".data.isPrefixOf sl.2 then (if sl.1 = 1 then .inf else .ninf)
  else
    let ip := sl.2.takeWhile Char.isDigit
    let r1 := sl.2.dropWhile Char.isDigit
    let fp := match r1 with
      | '.' :: t => t.takeWhile Char.isDigit
      | _ => []
    let r2 := match r1 with
      | '.' :: t => t.dropWhile Char.isDigit
      | _ => r1
    if ip.isEmpty && fp.isEmpty then .nan
    else
      let mant : ℚ := (digitsToNat ip : ℚ) + (digitsToNat fp : ℚ) / (10 : ℚ) ^ fp.length
      let ex : Int := match r2 with
        | c :: t =>
          if c = 'e' || c = 'E' then
            let st := signSplit t
            let ed := st.2.takeWhile Char.isDigit
            if ed.isEmpty then 0 else st.1 * digitsToNat ed
          else 0
        | [] => 0
      let scaled : ℚ :=
        if 0 ≤ ex then mant * (10 : ℚ) ^ ex.toNat else mant / (10 : ℚ) ^ (-ex).toNat
      .num ((sl.1 : ℚ) * scaled)

/-! ### The JS date model -/

/-- Day number (days since 1970-01-01) of the first day `d` of civil month
`m` (1-12) of year `y`, proleptic Gregorian (Hinnant's algorithm); linear in
`d`, so any integer `d` yields the correspondingly shifted day. -/
def daysFromCivil (y : Int) (m : Nat) (d : Int) : Int :=
  let y1 : Int := y - (if m ≤ 2 then 1 else 0)
  let era : Int := Int.fdiv y1 400
  let yoe : Nat := (y1 - era * 400).toNat
  let mp : Nat := if 2 < m then m - 3 else m + 9
  let doy : Nat := (153 * mp + 2) / 5
  era * 146097 + (yoe * 365 + yoe / 4 - yoe / 100 + doy : Nat) + (d - 1) - 719468

/-- Inverse of `daysFromCivil`: the civil `(year, month, day)` of a day
number (Hinnant's algorithm). -/
def civilFromDays (z0 : Int) : Int × Nat × Nat :=
  let z : Int := z0 + 719468
  let era : Int := Int.fdiv z 146097
  let doe : Nat := (z - era * 146097).toNat
  let yoe : Nat := (doe - doe / 1460 + doe / 36524 - doe / 146096) / 365
  let doy : Nat := doe - (365 * yoe + yoe / 4 - yoe / 100)
  let mp : Nat := (5 * doy + 2) / 153
  let d : Nat := doy - (153 * mp + 2) / 5 + 1
  let m : Nat := if mp < 10 then mp + 3 else mp - 9
  ((yoe : Int) + era * 400 + (if m ≤ 2 then 1 else 0), m, d)

/-- `Date.UTC(y, mo, d, h, mi, s)` on integer-or-NaN arguments: the
two-digit-year rule, calendar overflow normalization of the 0-based month
and the other fields (ECMAScript MakeDay/MakeTime), and TimeClip; `none` is
NaN in and Invalid Date out. -/
def jsDateUTC (y mo d h mi s : Option Int) : Option Int :=
  match y, mo, d, h, mi, s with
  | some y, some mo, some d, some h, some mi, some s =>
    let yr : Int := if 0 ≤ y ∧ y ≤ 99 then 1900 + y else y
    let ym : Int := yr + Int.fdiv mo 12
    let mn : Nat := (Int.emod mo 12).toNat
    let ms : Int :=
      (daysFromCivil ym (mn + 1) 1 + (d - 1)) * 86400000
        + h * 3600000 + mi * 60000 + s * 1000
    if ms.natAbs ≤ 8640000000000000 then some ms else none
  | _, _, _, _, _, _ => none

/-- The decimal digits of `n`, most significant first; `fuel` bounds the
number of digits (structural recursion keeps the definition computable by
the kernel). -/
def natDigsAux (fuel : Nat) (n : Nat) : List Char :=
  match fuel with
  | 0 => []
  | fuel + 1 =>
    if n < 10 then [Nat.digitChar n]
    else natDigsAux fuel (n / 10) ++ [Nat.digitChar (n % 10)]

/-- The decimal digits of `n`, most significant first. -/
def natDigs (n : Nat) : List Char := natDigsAux (n + 1) n

/-- `n` in decimal, zero-padded on the left to at least `w` characters. -/
def padNat (w n : Nat) : String :=
  let ds := natDigs n
  String.mk (List.replicate (w - ds.length) '0' ++ ds)

/-- `Date.prototype.toISOString` on a (valid) time value, including the
expanded-year format outside years 0-9999. -/
def toISOStringJs (t : Int) : String :=
  let days := Int.fdiv t 86400000
  let rem : Nat := (t - days * 86400000).toNat
  let c := civilFromDays days
  let ys : String :=
    if 0 ≤ c.1 ∧ c.1 ≤ 9999 then padNat 4 c.1.toNat
    else if c.1 < 0 then "-" ++ padNat 6 (-c.1).toNat
    else "+" ++ padNat 6 c.1.toNat
  ys ++ "-" ++ padNat 2 c.2.1 ++ "-" ++ padNat 2 c.2.2 ++ "T"
    ++ padNat 2 (rem / 3600000) ++ ":" ++ padNat 2 (rem % 3600000 / 60000) ++ ":"
    ++ padNat 2 (rem % 60000 / 1000) ++ "." ++ padNat 3 (rem % 1000) ++ "Z"

/-- `Number.prototype.toFixed(f)` on a finite value: sign of the argument,
then the magnitude rounded to `f` decimals (ties away from zero), padded so
the integer part is nonempty. -/
def ratToFixed (f : Nat) (q : ℚ) : String :=
  let n : Nat := (Rat.floor (|q| * (10 : ℚ) ^ f + 1 / 2)).toNat
  let ds0 := natDigs n
  let ds := List.replicate (f + 1 - ds0.length) '0' ++ ds0
  (if q < 0 then "-" else "") ++ String.mk (ds.take (ds.length - f))
    ++ (if f = 0 then "" else "." ++ String.mk (ds.drop (ds.length - f)))

/-- `Number.prototype.toFixed(f)` on a JS number. (The exponential-notation
branch for magnitudes at or above 1e21 is not distinguished here, doubles
being idealized as exact rationals; no claim depends on it.) -/
def toFixedJs (f : Nat) : JsNum → String
  | .nan => "NaN"
  | .inf => "Infinity"
  | .ninf => "-Infinity"
  | .num q => ratToFixed f q

/-! ### NMEA field decoders (src/converter.js lines 388-425) -/

/-- `parseNmeaCoordinate(coordStr, direction)`: `null` (`none`) exactly when
either argument is the empty string; otherwise degrees from the first 2
(`N`/`S`) or 3 (any other direction) characters plus minutes/60 from the
rest, negated for `S`/`W`. Unparsable substrings flow through as NaN. -/
def parseNmeaCoordinate (coordStr direction : String) : Option JsNum :=
  if coordStr = "" || direction = "" then none
  else
    let k : Nat := if direction = "N" || direction = "S" then 2 else 3
    let degrees := parseIntDec (jsSubstring coordStr 0 k)
    let minutes := parseFloatJs (jsSubstringFrom coordStr k)
    let decimal := jsAdd (jsOfParseInt degrees) (jsDiv minutes (.num 60))
    some (if direction = "S" || direction = "W" then jsNeg decimal else decimal)

/-- `Math.floor` of a JS number, as a `Date.UTC` argument: a non-finite
argument makes `Date.UTC` return NaN, so it is already mapped to `none`. -/
def jsFloorNum : JsNum → Option Int
  | .num q => some (Rat.floor q)
  | _ => none

/-- `parseNmeaTime(timeStr, dateStr)`: the `Date.UTC` instant of
`(2000 + YY, MM - 1, DD, HH, MM, floor(SS))` read at fixed offsets.
The JS function is declared to return `Date | null`, but for string
arguments its `catch` branch is unreachable, so the result is modelled
directly as a time value with `none` for an Invalid Date. -/
def parseNmeaTime (timeStr dateStr : String) : Option Int :=
  let hours := parseIntDec (jsSubstring timeStr 0 2)
  let minutes := parseIntDec (jsSubstring timeStr 2 4)
  let seconds := parseFloatJs (jsSubstringFrom timeStr 4)
  let day := parseIntDec (jsSubstring dateStr 0 2)
  let month := (parseIntDec (jsSubstring dateStr 2 4)).map (fun n => n - 1)
  let year := (parseIntDec (jsSubstring dateStr 4 6)).map (fun n => 2000 + n)
  jsDateUTC year month day hours minutes (jsFloorNum seconds)

/-! ### Sentence parser (src/converter.js lines 452-502) -/

/-- The record returned by `parseNmeaSentence`: an RMC fix (with its
validity flag, coordinates and time) or a GGA altitude (with its
placeholder-dated time). The JS object's `lat !== undefined` discrimination
corresponds to the constructor. -/
inductive ParsedData where
  | rmc (valid : Bool) (lat lon : JsNum) (time : Option Int)
  | gga (alt : JsNum) (time : Option Int)
  deriving DecidableEq, Repr

/-- `parseNmeaSentence(line)`: split on commas, dispatch on
`parts[0].substring(3)`; RMC decodes coordinates/time and is dropped if a
coordinate decodes to `null` (the `data.time === null` test in the source
never fires, `parseNmeaTime` never returning `null` for string arguments);
GGA decodes the altitude (dropped if NaN) and a time built with
`Date.UTC(0, 0, 0, HH, MM, floor(SS))`. -/
def parseNmeaSentence (line : String) : Option ParsedData :=
  let parts := jsSplit line ','
  let sentenceType := jsSubstringFrom (parts.headD "") 3
  if sentenceType = "RMC" then
    if parts.length < 10 then none
    else
      let time := parseNmeaTime (parts.getD 1 "") (parts.getD 9 "")
      match parseNmeaCoordinate (parts.getD 3 "") (parts.getD 4 ""),
            parseNmeaCoordinate (parts.getD 5 "") (parts.getD 6 "") with
      | some lat, some lon => some (.rmc (parts.getD 2 "" = "A") lat lon time)
      | _, _ => none
  else if sentenceType = "GGA" then
    if parts.length < 10 then none
    else
      let alt := parseFloatJs (parts.getD 9 "")
      let timeStr := parts.getD 1 ""
      let time := jsDateUTC (some 0) (some 0) (some 0)
        (parseIntDec (jsSubstring timeStr 0 2))
        (parseIntDec (jsSubstring timeStr 2 4))
        (jsFloorNum (parseFloatJs (jsSubstringFrom timeStr 4)))
      if alt = .nan then none else some (.gga alt time)
  else none

/-! ### Point merger (src/converter.js lines 511-550) -/

/-- An insertion-ordered JS `Map` keyed by whole-second time keys; the
`none` key is the NaN key (a single key under SameValueZero). -/
abbrev JsMap (α : Type) : Type := List (Option Int × α)

/-- `Map.prototype.set`: overwrite in place if the key is present (keeping
its position), else append. -/
def mapSet {α : Type} (m : JsMap α) (k : Option Int) (v : α) : JsMap α :=
  match m with
  | [] => [(k, v)]
  | e :: rest => if e.1 = k then (k, v) :: rest else e :: mapSet rest k v

/-- `Map.prototype.get` (with `undefined` as `none`). -/
def mapGet {α : Type} (m : JsMap α) (k : Option Int) : Option α :=
  match m with
  | [] => none
  | e :: rest => if e.1 = k then some e.2 else mapGet rest k

/-- The RMC data stored in `rmcPoints`. -/
structure RmcFix where
  lat : JsNum
  lon : JsNum
  time : Option Int
  deriving DecidableEq, Repr

/-- A combined point as pushed onto `combinedPoints`. -/
structure GpsPoint where
  lat : JsNum
  lon : JsNum
  time : Option Int
  alt : Option JsNum
  deriving DecidableEq, Repr

/-- `Math.floor(data.time.getTime() / 1000)`: the whole-second key (`none`
when the time is invalid). -/
def timeKeyOf (t : Option Int) : Option Int :=
  t.map (fun ms => Int.fdiv ms 1000)

/-- One iteration of the scanning loop: parse the trimmed line and insert a
valid RMC fix into `rmcPoints` or a GGA altitude into `ggaAlts`. -/
def scanStep (st : JsMap RmcFix × JsMap JsNum) (line : String) :
    JsMap RmcFix × JsMap JsNum :=
  match parseNmeaSentence (jsTrim line) with
  | none => st
  | some (.rmc valid lat lon time) =>
    if valid then (mapSet st.1 (timeKeyOf time) ⟨lat, lon, time⟩, st.2) else st
  | some (.gga alt time) => (st.1, mapSet st.2 (timeKeyOf time) alt)

/-- The two keyed collections after scanning all lines. -/
def buildMaps (lines : List String) : JsMap RmcFix × JsMap JsNum :=
  lines.foldl scanStep ([], [])

/-- The merge: one combined point per `rmcPoints` entry in insertion order,
with the altitude at the same key attached when present. -/
def combinedOf (lines : List String) : List GpsPoint :=
  let maps := buildMaps lines
  maps.1.map (fun e => ⟨e.2.lat, e.2.lon, e.2.time, mapGet maps.2 e.1⟩)

/-- The sort comparator value `a.time - b.time` (comparator results that
are NaN are treated as 0 by ECMAScript SortCompare). -/
def timeCmpVal (a b : GpsPoint) : Int :=
  match a.time, b.time with
  | some x, some y => x - y
  | _, _ => 0

/-- Insert `p` into a sorted list, after every element that compares at or
below it (keeping a stable order for equal comparator values). -/
def insertSorted (p : GpsPoint) : List GpsPoint → List GpsPoint
  | [] => [p]
  | q :: rest =>
    if timeCmpVal q p ≤ 0 then q :: insertSorted p rest else p :: q :: rest

/-- `combinedPoints.sort((a, b) => a.time - b.time)` as a stable sort
(ECMAScript requires a stable sort; for a consistent comparator any stable
sort produces the same permutation). -/
def sortPoints (l : List GpsPoint) : List GpsPoint :=
  l.foldl (fun acc p => insertSorted p acc) []

/-! ### Filter configuration and pipeline (src/converter.js lines 552-600) -/

/-- `parseJstToUtc`: the empty string and unparsable strings are `null` (no
bound); a parsed bound is the UTC instant nine hours before the given
wall-clock fields. The host's lenient `new Date(string)` grammar is
restricted to the documented `YYYY-MM-DD HH:MM:SS` format. -/
def parseJstToUtc (timeStr : String) : Option Int :=
  if timeStr = "" then none
  else
    match timeStr.data with
    | [y1, y2, y3, y4, '-', m1, m2, '-', d1, d2, ' ',
       h1, h2, ':', i1, i2, ':', s1, s2] =>
      if ([y1, y2, y3, y4, m1, m2, d1, d2, h1, h2, i1, i2, s1, s2].all
            Char.isDigit) then
        let m := digitsToNat [m1, m2]
        let d := digitsToNat [d1, d2]
        let h := digitsToNat [h1, h2]
        let mi := digitsToNat [i1, i2]
        let s := digitsToNat [s1, s2]
        if 1 ≤ m ∧ m ≤ 12 ∧ 1 ≤ d ∧ d ≤ 31 ∧ h ≤ 23 ∧ mi ≤ 59 ∧ s ≤ 59 then
          some (daysFromCivil (digitsToNat [y1, y2, y3, y4]) m d * 86400000
            + (h * 3600000 + mi * 60000 + s * 1000 : Nat) - 32400000)
        else none
      else none
    | _ => none

/-- The active speed cap: 10, 100, or Infinity for any other selector. -/
def maxSpeedOf (speedFilterType : String) : JsNum :=
  if speedFilterType = "10" then .num 10
  else if speedFilterType = "100" then .num 100
  else .inf

/-- JS `<` between a Date and a Date-or-null: false whenever either side is
null or an Invalid Date (NaN comparisons). -/
def jsDateLt (a b : Option Int) : Bool :=
  match a, b with
  | some x, some y => decide (x < y)
  | _, _ => false

/-- The stage-A test: the point survives the time window (the source skips
when `startTimeUtc && time < startTimeUtc` or
`endTimeUtc && time > endTimeUtc`). -/
def timeOkB (startT endT : Option Int) (t : Option Int) : Bool :=
  !(startT.isSome && jsDateLt t startT) && !(endT.isSome && jsDateLt endT t)

/-- `(currentPoint.time.getTime() - lastPoint.time.getTime()) / 1000`, NaN
when either time is invalid. -/
def timeDiffSec (lastT curT : Option Int) : JsNum :=
  match curT, lastT with
  | some c, some l => .num (((c - l : Int) : ℚ) / 1000)
  | _, _ => .nan

/-- The type of `getDistance(lat1, lon1, lat2, lon2)`. The source's
Haversine formula uses transcendental functions on doubles, so the pipeline
is parameterized by the distance function; every theorem below holds for
all of them. -/
def DistFn : Type := JsNum → JsNum → JsNum → JsNum → JsNum

/-- The speed-cap stage for one point, carrying `(lastPoint, filteredPoints)`:
when there is a last accepted point, a positive elapsed time and a positive
distance, the point is skipped (state unchanged) if its speed exceeds the
cap; in every other case it is accepted and becomes the last point. -/
def speedStep (dist : DistFn) (maxSpeedKmh : JsNum)
    (st : Option GpsPoint × List GpsPoint) (p : GpsPoint) :
    Option GpsPoint × List GpsPoint :=
  match st.1 with
  | some lastPoint =>
    let distanceKm := dist lastPoint.lat lastPoint.lon p.lat p.lon
    let tds := timeDiffSec lastPoint.time p.time
    if jsGt tds (.num 0) && jsGt distanceKm (.num 0) then
      if jsGt (jsMul (jsDiv distanceKm tds) (.num 3600)) maxSpeedKmh then st
      else (some p, st.2 ++ [p])
    else (some p, st.2 ++ [p])
  | none => (some p, st.2 ++ [p])

/-- One iteration of the filtering loop: stage A (time window), then
stage B (speed cap). -/
def filterStep (dist : DistFn) (maxS : JsNum) (startT endT : Option Int)
    (st : Option GpsPoint × List GpsPoint) (p : GpsPoint) :
    Option GpsPoint × List GpsPoint :=
  if timeOkB startT endT p.time then speedStep dist maxS st p else st

/-- The full filtering loop over the sorted combined points. -/
def filterPoints (dist : DistFn) (maxS : JsNum) (startT endT : Option Int)
    (pts : List GpsPoint) : List GpsPoint :=
  (pts.foldl (filterStep dist maxS startT endT) (none, [])).2

/-! ### GPX serialization and the conversion entry point
(src/converter.js lines 602-624) -/

/-- The fixed document head up to the first track point. -/
def gpxHeader : String :=
  "<?xml version=\"1.0\" encoding=\"UTF-8\" standalone=\"no\" ?>\n"
    ++ "<gpx xmlns=\"http://www.topografix.com/GPX/1/1\" version=\"1.1\" "
    ++ "creator=\"NMEA to GPX Converter\">\n<trk>\n<trkseg>\n"

/-- The fixed document tail. -/
def gpxFooter : String := "</trkseg>\n</trk>\n</gpx>"

/-- The ways `convertToGpx` can throw: its two explicit `Error`s, and the
`RangeError` that `Date.prototype.toISOString` raises on an Invalid Date. -/
inductive JsError where
  | noValidPoints
  | noneAfterFilter
  | invalidTimeValue
  deriving DecidableEq, Repr

/-- One `<trkpt>` block for a point whose time value is `t`: coordinates to
6 decimals, an `<ele>` line only when the altitude is present (2 decimals),
and the ISO-8601 time. -/
def trkptXml (p : GpsPoint) (t : Int) : String :=
  "  <trkpt lat=\"" ++ toFixedJs 6 p.lat ++ "\" lon=\"" ++ toFixedJs 6 p.lon
    ++ "\">\n"
    ++ (match p.alt with
        | some a => "    <ele>" ++ toFixedJs 2 a ++ "</ele>\n"
        | none => "")
    ++ "    <time>" ++ toISOStringJs t ++ "</time>\n  </trkpt>\n"

/-- The serialization loop: append one `<trkpt>` block per point, throwing
`RangeError` at the first point with an invalid time, then the footer. -/
def renderPoints (acc : String) : List GpsPoint → Except JsError String
  | [] => .ok (acc ++ gpxFooter)
  | p :: ps =>
    match p.time with
    | none => .error .invalidTimeValue
    | some t => renderPoints (acc ++ trkptXml p t) ps

/-- `convertToGpx(fileContent, speedFilterType, startTimeStr, endTimeStr)`:
split into lines, parse and merge, fail if no combined points, sort, filter
by time window and speed cap, fail if nothing survives, serialize. -/
def convertToGpx (dist : DistFn)
    (fileContent speedFilterType startTimeStr endTimeStr : String) :
    Except JsError String :=
  let combinedPoints := combinedOf (jsSplit fileContent '\n')
  if combinedPoints.isEmpty then .error .noValidPoints
  else
    let filteredPoints := filterPoints dist (maxSpeedOf speedFilterType)
      (parseJstToUtc startTimeStr) (parseJstToUtc endTimeStr)
      (sortPoints combinedPoints)
    if filteredPoints.isEmpty then .error .noneAfterFilter
    else renderPoints gpxHeader filteredPoints

/-! ### Auxiliary definitions used by the theorems -/

/-- A concrete distance function (constant zero), used to instantiate the
`DistFn` parameter in closed statements whose outcome does not depend on
the distance values. -/
def distZero : DistFn := fun _ _ _ _ => JsNum.num 0

/-- Whether `pat` occurs as a contiguous substring of `l`. -/
def hasSub (pat : List Char) : List Char → Bool
  | [] => pat.isEmpty
  | c :: rest => pat.isPrefixOf (c :: rest) || hasSub pat rest

/-- The character list of an `<ele>` opening tag. -/
def eleTag : List Char := ['<', 'e', 'l', 'e', '>']

/-- Scanner for the absence of an adjacent `'<'`, `'e'` pair; any
occurrence of `eleTag` contains one. -/
def noLtE : List Char → Bool
  | [] => true
  | c :: rest => !((c == '<') && (rest.head? == some 'e')) && noLtE rest

/-- The contribution of one line to `rmcPoints`: the key-value pair
inserted by the scanning loop, if any. -/
def rmcContrib (line : String) : Option (Option Int × RmcFix) :=
  match parseNmeaSentence (jsTrim line) with
  | some (.rmc true lat lon time) => some (timeKeyOf time, ⟨lat, lon, time⟩)
  | _ => none

/-- The contribution of one line to `ggaAlts`. -/
def ggaContrib (line : String) : Option (Option Int × JsNum) :=
  match parseNmeaSentence (jsTrim line) with
  | some (.gga alt time) => some (timeKeyOf time, alt)
  | _ => none

/-- Reference function written from the specification's words: the
last-write-wins value at key `k`, i.e. the value of the last line in file
order contributing key `k`. -/
def lastWriteAt {α : Type} (contrib : String → Option (Option Int × α))
    (k : Option Int) (lines : List String) : Option α :=
  (((lines.filterMap contrib).filter (fun e => decide (e.1 = k))).getLast?).map
    (fun e => e.2)

/-- Executable check of claim C2's stated hypothesis on one line: every
valid RMC fix carries a time decoding to a valid instant in 2000-2099. -/
def rmcYears2000OkB (line : String) : Bool :=
  match parseNmeaSentence (jsTrim line) with
  | some (.rmc true _ _ time) =>
    match time with
    | some t => decide (946684800000 ≤ t ∧ t < 4102444800000)
    | none => false
  | _ => true

/-- Executable check of the amended hypothesis added to claim C2: every GGA
record's placeholder-based instant falls before 2000-01-01 (true whenever
its decoded time-of-day fields total less than 3155760000 seconds). -/
def ggaBefore2000B (line : String) : Bool :=
  match parseNmeaSentence (jsTrim line) with
  | some (.gga _ time) =>
    match time with
    | some t => decide (t < 946684800000)
    | none => true
  | _ => true

/-- The speed-cap stage alone, run over a list of points. -/
def speedOnlyPoints (dist : DistFn) (maxS : JsNum) (pts : List GpsPoint) :
    List GpsPoint :=
  (pts.foldl (speedStep dist maxS) (none, [])).2

/-- The 4th-6th characters of the first comma-separated field of a line
(the three characters the specification calls the sentence type). -/
def sentenceTypeChars (line : String) : String :=
  jsSubstring ((jsSplit line ',').headD "") 3 6

/-! ### Concrete inputs and points for the closed statements -/

/-- The two-line input of claim C1: an RMC fix at 2025-01-01T12:00:00Z and
a GGA sentence at the same second with altitude field `100.0`. -/
def c1Input : String :=
  "$GPRMC,120000.00,A,3530.0000,N,13930.0000,E,0.0,0.0,010125,,*00\n"
    ++ "$GPGGA,120000.00,3530.0000,N,13930.0000,E,1,08,1.0,100.0,M,40.0,M,,*00"

/-- The RMC line of `c1Input`. -/
def c1Rmc : String :=
  "$GPRMC,120000.00,A,3530.0000,N,13930.0000,E,0.0,0.0,010125,,*00"

/-- The GGA line of `c1Input`. -/
def c1Gga : String :=
  "$GPGGA,120000.00,3530.0000,N,13930.0000,E,1,08,1.0,100.0,M,40.0,M,,*00"

/-- The single combined point produced from `c1Input`: the altitude is not
attached, because the GGA merge key (built from the 1899-12-31 placeholder
date) differs from the RMC key. -/
def c1Point : GpsPoint :=
  ⟨JsNum.num (71 / 2), JsNum.num (279 / 2), some 1735732800000, none⟩

/-- Counterexample input for claim C2: the RMC fix is dated
2001-05-28T00:53:20Z (epoch second 991011200), and the GGA sentence's time
field `00003200086400` decodes to hours 0, minutes 0, seconds 3200086400,
so its placeholder-based key is `-2209075200 + 3200086400 = 991011200` as
well — the keys collide and the altitude is attached. -/
def c2Input : String :=
  "$GPRMC,005320.00,A,3530.0000,N,13930.0000,E,0.0,0.0,280501,,*00\n"
    ++ "$GPGGA,00003200086400,3530.0000,N,13930.0000,E,1,08,1.0,100.0,M,40.0,M,,*00"

/-- The RMC line of `c2Input`. -/
def c2Rmc : String :=
  "$GPRMC,005320.00,A,3530.0000,N,13930.0000,E,0.0,0.0,280501,,*00"

/-- The GGA line of `c2Input`. -/
def c2Gga : String :=
  "$GPGGA,00003200086400,3530.0000,N,13930.0000,E,1,08,1.0,100.0,M,40.0,M,,*00"

/-- The single combined point produced from `c2Input`, with the altitude
attached. -/
def c2Point : GpsPoint :=
  ⟨JsNum.num (71 / 2), JsNum.num (279 / 2), some 991011200000,
    some (JsNum.num 100)⟩

/-- Counterexample input for claim C3: a status-`A` RMC sentence whose date
field `0101XX` does not parse, so its time is an Invalid Date; the record
is still kept (the coordinates decode), survives both filters, and
`toISOString` then throws a `RangeError`. -/
def c3Input : String :=
  "$GPRMC,120000.00,A,3530.0000,N,13930.0000,E,0.0,0.0,0101XX,,*00"

/-- An RMC line with status `V`: decodes fine but contributes nothing. -/
def c9Line : String :=
  "$GPRMC,120000.00,V,3530.0000,N,13930.0000,E,0.0,0.0,010125,,*00"

/-- Witness points for the speed-filter claims: three points one and two
hours apart. -/
def w0 : GpsPoint := ⟨JsNum.num 0, JsNum.num 0, some 0, none⟩

/-- Second witness point (its latitude 1 selects the long jump under
`wDist`). -/
def w1 : GpsPoint := ⟨JsNum.num 1, JsNum.num 0, some 3600000, none⟩

/-- Third witness point. -/
def w2 : GpsPoint := ⟨JsNum.num 2, JsNum.num 0, some 7200000, none⟩

/-- A concrete distance function for the speed-filter witness: 1000 km to a
point of latitude 1, otherwise 1 km. -/
def wDist : DistFn := fun _ _ la2 _ =>
  if la2 = JsNum.num 1 then JsNum.num 1000 else JsNum.num 1

/-- The value of the last entry of an association list, with a fallback for
the empty list (used to state the last-write-wins property). -/
def lastOr {α : Type} (l : List (Option Int × α)) (fallback : Option α) :
    Option α :=
  match l.getLast? with
  | some e => some e.2
  | none => fallback

/-! ### Helper lemmas: maps -/

theorem mapGet_set_self {α : Type} (m : JsMap α) (k : Option Int) (v : α) :
    mapGet (mapSet m k v) k = some v := by
  induction m with
  | nil => simp [mapSet, mapGet]
  | cons e rest ih =>
    by_cases h : e.1 = k
    · simp [mapSet, mapGet, h]
    · simp [mapSet, mapGet, h, ih]

theorem mapGet_set_ne {α : Type} (m : JsMap α) (k0 k : Option Int) (v : α)
    (h : k0 ≠ k) : mapGet (mapSet m k0 v) k = mapGet m k := by
  induction m with
  | nil => simp [mapSet, mapGet, h]
  | cons e rest ih =>
    by_cases he : e.1 = k0
    · simp [mapSet, mapGet, he, h]
    · simp only [mapSet, mapGet, if_neg he]
      by_cases he2 : e.1 = k <;> simp [he2, ih]

theorem mapSet_forall {α : Type} {P : Option Int × α → Prop} {m : JsMap α}
    {k : Option Int} {v : α} (hm : ∀ e ∈ m, P e) (hkv : P (k, v)) :
    ∀ e ∈ mapSet m k v, P e := by
  induction m with
  | nil => simpa [mapSet] using hkv
  | cons e0 rest ih =>
    intro e he
    by_cases h : e0.1 = k
    · simp only [mapSet, if_pos h, List.mem_cons] at he
      rcases he with rfl | he
      · exact hkv
      · exact hm e (List.mem_cons_of_mem _ he)
    · simp only [mapSet, if_neg h, List.mem_cons] at he
      rcases he with rfl | he
      · exact hm e (List.mem_cons_self _ _)
      · exact ih (fun x hx => hm x (List.mem_cons_of_mem _ hx)) e he

theorem mapGet_eq_none {α : Type} {m : JsMap α} {k : Option Int}
    (h : ∀ e ∈ m, e.1 ≠ k) : mapGet m k = none := by
  induction m with
  | nil => rfl
  | cons e rest ih =>
    simp only [mapGet, if_neg (h e (List.mem_cons_self _ _))]
    exact ih fun x hx => h x (List.mem_cons_of_mem _ hx)

/-! ### Helper lemmas: split -/

theorem splitOnChar_ne_nil (sep : Char) (l : List Char) :
    splitOnChar sep l ≠ [] := by
  cases l with
  | nil => simp [splitOnChar]
  | cons c rest =>
    simp only [splitOnChar]
    cases h : splitOnChar sep rest with
    | nil => simp
    | cons h0 t => by_cases hc : c = sep <;> simp [hc]

theorem splitOnChar_no_sep (sep : Char) (l : List Char) (h : sep ∉ l) :
    splitOnChar sep l = [l] := by
  induction l with
  | nil => rfl
  | cons c rest ih =>
    have hc : c ≠ sep := fun hc => h (hc ▸ List.mem_cons_self _ _)
    have hrest : sep ∉ rest := fun hr => h (List.mem_cons_of_mem _ hr)
    simp [splitOnChar, ih hrest, hc]

theorem splitOnChar_append_sep (sep : Char) (a b : List Char) (h : sep ∉ a) :
    splitOnChar sep (a ++ sep :: b) = a :: splitOnChar sep b := by
  induction a with
  | nil =>
    simp only [List.nil_append, splitOnChar]
    cases hb : splitOnChar sep b with
    | nil => exact absurd hb (splitOnChar_ne_nil sep b)
    | cons h0 t => simp
  | cons c a ih =>
    have hc : c ≠ sep := fun hc => h (hc ▸ List.mem_cons_self _ _)
    have ha : sep ∉ a := fun hr => h (List.mem_cons_of_mem _ hr)
    simp only [List.cons_append, splitOnChar, List.append_eq, ih ha, if_neg hc]

theorem stringMk_data (s : String) : String.mk s.data = s := rfl

/-! ### Claim C4 -/

/-- C4 (counterexample): with an unparsable degrees/minutes substring and
both inputs nonempty, `parseNmeaCoordinate` returns NaN - a value, not the
claimed "no value" (`null`). -/
theorem claim4_counterexample :
    parseNmeaCoordinate "XXXX.0" "N" = some JsNum.nan ∧
    parseNmeaCoordinate "XXXX.0" "N" ≠ none := by
  constructor
  · with_unfolding_all rfl
  · intro h
    have : (some JsNum.nan : Option JsNum) = none := by
      rw [← h]; with_unfolding_all rfl
    exact Option.noConfusion this

/-- C4 (amended): `parseNmeaCoordinate` returns "no value" (`null`) exactly
when either input is empty; an unparsable substring yields NaN rather than
`null` (and no exception); in all other respects the value is
degrees + minutes/60, negated for hemisphere `S` or `W` (so the `S` result
is the negation of the `N` result, and `W` of `E`). -/
theorem claim4_amended :
    (∀ c d : String, parseNmeaCoordinate c d = none ↔ (c = "" ∨ d = "")) ∧
    (∀ c : String, c ≠ "" →
      parseNmeaCoordinate c "S" = (parseNmeaCoordinate c "N").map jsNeg ∧
      parseNmeaCoordinate c "W" = (parseNmeaCoordinate c "E").map jsNeg) := by
  constructor
  · intro c d
    by_cases hc : c = "" <;> by_cases hd : d = "" <;>
      simp [parseNmeaCoordinate, hc, hd]
  · intro c hc
    constructor
    · simp [parseNmeaCoordinate, hc]
    · simp [parseNmeaCoordinate, hc]

/-- C4 (witness): the amended theorem applied at a concrete coordinate. -/
theorem claim4_amended_witness :
    ("3545.1234" : String) ≠ "" ∧
    parseNmeaCoordinate "3545.1234" "S" =
      (parseNmeaCoordinate "3545.1234" "N").map jsNeg := by
  have h : ("3545.1234" : String) ≠ "" := by decide
  exact ⟨h, (claim4_amended.2 "3545.1234" h).1⟩

/-! ### Claim C5 -/

/-- C5 (counterexample): the out-of-range month field `32` in date
`013225` is not rejected: `Date.UTC` normalizes it by calendar overflow,
and `parseNmeaTime` returns the instant 2027-08-01T12:00:00.000Z instead
of the claimed "no value". -/
theorem claim5_counterexample :
    parseNmeaTime "120000.00" "013225" = some 1817121600000 ∧
    toISOStringJs 1817121600000 = "2027-08-01T12:00:00.000Z" := by
  constructor
  · with_unfolding_all rfl
  · with_unfolding_all rfl

/-- C5 (amended): `parseNmeaTime` returns "no value" (an Invalid Date)
whenever any required substring fails to parse as a number (it never
returns `null` for string inputs); an out-of-range date or time field is
normalized by calendar overflow, not rejected; on success the instant is
built from hours, minutes, seconds truncated to the whole second, day,
month and year 2000 + YY - in particular `123456.78`/`010125` yields
2025-01-01T12:34:56Z. -/
theorem claim5_amended :
    (∀ t d : String,
      parseIntDec (jsSubstring t 0 2) = none ∨
      parseIntDec (jsSubstring t 2 4) = none ∨
      jsFloorNum (parseFloatJs (jsSubstringFrom t 4)) = none ∨
      parseIntDec (jsSubstring d 0 2) = none ∨
      parseIntDec (jsSubstring d 2 4) = none ∨
      parseIntDec (jsSubstring d 4 6) = none →
      parseNmeaTime t d = none) ∧
    parseNmeaTime "123456.78" "010125" = some 1735734896000 ∧
    toISOStringJs 1735734896000 = "2025-01-01T12:34:56.000Z" := by
  refine ⟨?_, ?_, ?_⟩
  · intro t d h
    rcases h with h | h | h | h | h | h <;>
      simp [parseNmeaTime, h, jsDateUTC]
  · with_unfolding_all rfl
  · with_unfolding_all rfl

/-- C5 (witness): the amended theorem applied at a time string whose hours
substring is non-numeric. -/
theorem claim5_amended_witness :
    parseIntDec (jsSubstring "XX3456.78" 0 2) = none ∧
    parseNmeaTime "XX3456.78" "010125" = none := by
  have h : parseIntDec (jsSubstring "XX3456.78" 0 2) = none := by
    with_unfolding_all rfl
  exact ⟨h, claim5_amended.1 "XX3456.78" "010125" (Or.inl h)⟩

/-! ### Claim C10 -/

/-- C10: a line yields a record only when the 4th-6th characters of its
first comma-separated field read `RMC` or `GGA` and the line splits into at
least 10 fields; any other sentence type, or fewer than 10 fields, yields
no record. (The source compares `parts[0].substring(3)` - the 4th character
through the end of the field - with `RMC`/`GGA`, which entails the stated
conditions on the 4th-6th characters.) -/
theorem claim10_sentence_dispatch :
    ∀ line : String,
      (parseNmeaSentence line ≠ none →
        (sentenceTypeChars line = "RMC" ∨ sentenceTypeChars line = "GGA") ∧
          10 ≤ (jsSplit line ',').length) ∧
      (¬(sentenceTypeChars line = "RMC" ∨ sentenceTypeChars line = "GGA") →
        parseNmeaSentence line = none) ∧
      ((jsSplit line ',').length < 10 → parseNmeaSentence line = none) := by
  intro line
  have hchars : ∀ s : String, jsSubstringFrom ((jsSplit line ',').headD "") 3 = s →
      s.data.length = 3 → sentenceTypeChars line = s := by
    intro s hs hlen
    have hdata : ((jsSplit line ',').headD "").data.drop 3 = s.data := by
      have := congrArg String.data hs
      simpa [jsSubstringFrom] using this
    calc sentenceTypeChars line
        = String.mk (List.take 3 (((jsSplit line ',').headD "").data.drop 3)) := rfl
      _ = String.mk (List.take 3 s.data) := by rw [hdata]
      _ = String.mk s.data := by rw [List.take_of_length_le (le_of_eq hlen)]
      _ = s := stringMk_data s
  by_cases hr : jsSubstringFrom ((jsSplit line ',').headD "") 3 = "RMC"
  · have hty := hchars "RMC" hr (by decide)
    by_cases hlen : (jsSplit line ',').length < 10
    · refine ⟨?_, ?_, ?_⟩
      · intro hne
        exact absurd (by simp [parseNmeaSentence, hr, hlen]) hne
      · intro hcon; exact absurd (Or.inl hty) hcon
      · intro _; simp [parseNmeaSentence, hr, hlen]
    · refine ⟨fun _ => ⟨Or.inl hty, Nat.le_of_not_lt hlen⟩, ?_, ?_⟩
      · intro hcon; exact absurd (Or.inl hty) hcon
      · intro hcon; exact absurd hcon hlen
  · by_cases hg : jsSubstringFrom ((jsSplit line ',').headD "") 3 = "GGA"
    · have hty := hchars "GGA" hg (by decide)
      by_cases hlen : (jsSplit line ',').length < 10
      · refine ⟨?_, ?_, ?_⟩
        · intro hne
          exact absurd (by simp [parseNmeaSentence, hr, hg, hlen]) hne
        · intro hcon; exact absurd (Or.inr hty) hcon
        · intro _; simp [parseNmeaSentence, hr, hg, hlen]
      · refine ⟨fun _ => ⟨Or.inr hty, Nat.le_of_not_lt hlen⟩, ?_, ?_⟩
        · intro hcon; exact absurd (Or.inr hty) hcon
        · intro hcon; exact absurd hcon hlen
    · have hnone : parseNmeaSentence line = none := by
        simp only [List.headD_eq_head?] at hr hg
        simp [parseNmeaSentence, List.headD_eq_head?, hr, hg]
      exact ⟨fun hne => absurd hnone hne, fun _ => hnone, fun _ => hnone⟩

/-- C10 (witness): the dispatch theorem applied to a sentence of an
unsupported type (`GSV`), which yields no record. -/
theorem claim10_sentence_dispatch_witness :
    ¬(sentenceTypeChars "$GPGSV,1,2,3,4,5,6,7,8,9,10" = "RMC" ∨
      sentenceTypeChars "$GPGSV,1,2,3,4,5,6,7,8,9,10" = "GGA") ∧
    parseNmeaSentence "$GPGSV,1,2,3,4,5,6,7,8,9,10" = none := by
  have h : ¬(sentenceTypeChars "$GPGSV,1,2,3,4,5,6,7,8,9,10" = "RMC" ∨
      sentenceTypeChars "$GPGSV,1,2,3,4,5,6,7,8,9,10" = "GGA") := by
    intro hcon
    rcases hcon with h | h <;> revert h <;> with_unfolding_all decide
  exact ⟨h, (claim10_sentence_dispatch "$GPGSV,1,2,3,4,5,6,7,8,9,10").2.1 h⟩

/-! ### Claim C9 -/

/-- An RMC-typed line whose status field is not `A` leaves the scanning
state untouched: either a decode failure drops it, or the record is parsed
with `valid = false` and is not inserted. -/
theorem scanStep_skip_invalid_rmc (st : JsMap RmcFix × JsMap JsNum) (l : String)
    (hty : jsSubstringFrom ((jsSplit (jsTrim l) ',').headD "") 3 = "RMC")
    (hst : (jsSplit (jsTrim l) ',').getD 2 "" ≠ "A") :
    scanStep st l = st := by
  have hval : (decide ((jsSplit (jsTrim l) ',').getD 2 "" = "A")) = false :=
    decide_eq_false hst
  have hd : parseNmeaSentence (jsTrim l) = none ∨
      ∃ la lo t, parseNmeaSentence (jsTrim l) = some (.rmc false la lo t) := by
    cases hp : parseNmeaSentence (jsTrim l) with
    | none => exact Or.inl rfl
    | some d =>
      simp only [parseNmeaSentence, hty, eq_self_iff_true, if_true] at hp
      split at hp
      · exact absurd hp (by simp)
      · split at hp
        · rw [hval] at hp
          exact Or.inr ⟨_, _, _, hp.symm⟩
        · exact absurd hp (by simp)
  rcases hd with h | ⟨la, lo, t, h⟩ <;> simp [scanStep, h]

/-- C9: an RMC sentence whose status field is anything other than `A`
contributes zero combined points - removing the line from the input leaves
the merged sequence unchanged, even when its coordinates and time decode. -/
theorem claim9_invalid_rmc_contributes_nothing :
    ∀ (pre post : List String) (l : String),
      jsSubstringFrom ((jsSplit (jsTrim l) ',').headD "") 3 = "RMC" →
      (jsSplit (jsTrim l) ',').getD 2 "" ≠ "A" →
      combinedOf (pre ++ l :: post) = combinedOf (pre ++ post) := by
  intro pre post l hty hst
  have hb : buildMaps (pre ++ l :: post) = buildMaps (pre ++ post) := by
    simp only [buildMaps, List.foldl_append, List.foldl_cons,
      scanStep_skip_invalid_rmc _ l hty hst]
  simp only [combinedOf, hb]

/-- C9 (witness): the theorem applied to a status-`V` RMC line as the whole
input; it produces no combined points. -/
theorem claim9_witness :
    jsSubstringFrom ((jsSplit (jsTrim c9Line) ',').headD "") 3 = "RMC" ∧
    (jsSplit (jsTrim c9Line) ',').getD 2 "" ≠ "A" ∧
    combinedOf [c9Line] = combinedOf [] := by
  have h1 : jsSubstringFrom ((jsSplit (jsTrim c9Line) ',').headD "") 3 = "RMC" := by
    with_unfolding_all rfl
  have h2 : (jsSplit (jsTrim c9Line) ',').getD 2 "" ≠ "A" := by
    intro h
    have hv : (jsSplit (jsTrim c9Line) ',').getD 2 "" = "V" := by
      with_unfolding_all rfl
    rw [hv] at h
    exact absurd h (by decide)
  exact ⟨h1, h2, claim9_invalid_rmc_contributes_nothing [] [] c9Line h1 h2⟩

/-! ### Claim C8 -/

/-- The combined filtering fold restricted to the stage-A survivors: the
loop body first applies the time-window test and leaves the state untouched
on failure, so folding it equals folding the speed stage over the filtered
list. -/
theorem foldl_filterStep_eq (dist : DistFn) (maxS : JsNum)
    (startT endT : Option Int) :
    ∀ (pts : List GpsPoint) (st : Option GpsPoint × List GpsPoint),
      pts.foldl (filterStep dist maxS startT endT) st =
        (pts.filter (fun p => timeOkB startT endT p.time)).foldl
          (speedStep dist maxS) st := by
  intro pts
  induction pts with
  | nil => intro st; rfl
  | cons p rest ih =>
    intro st
    by_cases h : timeOkB startT endT p.time = true
    · simp only [List.foldl_cons, List.filter_cons, h, if_true, filterStep,
        List.foldl_cons, ih]
    · have hb : timeOkB startT endT p.time = false := by
        exact Bool.eq_false_iff.mpr h
      simp only [List.foldl_cons, List.filter_cons, hb, Bool.false_eq_true,
        if_false, filterStep, ih]

/-- C8: the time window keeps exactly the points with
start ≤ time ≤ end (each bound applied only when set, boundaries
inclusive), and the pipeline's loop is the speed stage run over exactly
those survivors. -/
theorem claim8_time_window :
    (∀ (startT endT : Option Int) (t : Int),
      timeOkB startT endT (some t) =
        (startT.all (fun s => decide (s ≤ t)) &&
          endT.all (fun e => decide (t ≤ e)))) ∧
    (∀ (dist : DistFn) (maxS : JsNum) (startT endT : Option Int)
        (pts : List GpsPoint),
      filterPoints dist maxS startT endT pts =
        speedOnlyPoints dist maxS
          (pts.filter (fun p => timeOkB startT endT p.time))) := by
  constructor
  · have not_decide_lt : ∀ a b : Int, (!decide (a < b)) = decide (b ≤ a) := by
      intro a b
      rw [← decide_not, decide_eq_decide]
      exact not_lt
    intro startT endT t
    cases startT <;> cases endT <;>
      simp [timeOkB, jsDateLt, Option.all, not_decide_lt]
  · intro dist maxS startT endT pts
    simp only [filterPoints, speedOnlyPoints, foldl_filterStep_eq]

/-! ### Claim C6 -/

/-- C6: under an active speed cap, rejecting a point never advances the
last-accepted anchor - for three window-surviving points where the speed
from P0 to P1 exceeds the cap but the speed from P0 to P2 does not, P1 is
dropped and P2 is compared against P0 and accepted; and whenever the
elapsed time between the anchor and the current point is at most 0, or the
distance is 0, the current point is accepted unconditionally. -/
theorem claim6_speed_filter :
    (∀ (dist : DistFn) (m : ℚ) (startT endT : Option Int)
        (p0 p1 p2 : GpsPoint),
      timeOkB startT endT p0.time = true →
      timeOkB startT endT p1.time = true →
      timeOkB startT endT p2.time = true →
      jsGt (timeDiffSec p0.time p1.time) (.num 0) = true →
      jsGt (dist p0.lat p0.lon p1.lat p1.lon) (.num 0) = true →
      jsGt (jsMul (jsDiv (dist p0.lat p0.lon p1.lat p1.lon)
          (timeDiffSec p0.time p1.time)) (.num 3600)) (.num m) = true →
      jsGt (timeDiffSec p0.time p2.time) (.num 0) = true →
      jsGt (dist p0.lat p0.lon p2.lat p2.lon) (.num 0) = true →
      jsGt (jsMul (jsDiv (dist p0.lat p0.lon p2.lat p2.lon)
          (timeDiffSec p0.time p2.time)) (.num 3600)) (.num m) = false →
      filterPoints dist (.num m) startT endT [p0, p1, p2] = [p0, p2]) ∧
    (∀ (dist : DistFn) (maxS : JsNum) (startT endT : Option Int)
        (lastP p : GpsPoint) (acc : List GpsPoint),
      timeOkB startT endT p.time = true →
      ((∃ tl tc : Int, lastP.time = some tl ∧ p.time = some tc ∧ tc - tl ≤ 0) ∨
        dist lastP.lat lastP.lon p.lat p.lon = JsNum.num 0) →
      filterStep dist maxS startT endT (some lastP, acc) p =
        (some p, acc ++ [p])) := by
  constructor
  · intro dist m startT endT p0 p1 p2 h0 h1 h2 ht1 hd1 hs1 ht2 hd2 hs2
    simp only [filterPoints, List.foldl_cons, List.foldl_nil]
    rw [show filterStep dist (.num m) startT endT (none, []) p0 =
        (some p0, [p0]) from by simp [filterStep, h0, speedStep]]
    rw [show filterStep dist (.num m) startT endT (some p0, [p0]) p1 =
        (some p0, [p0]) from by
      simp only [filterStep, h1, if_true, speedStep, ht1, hd1,
        Bool.and_self, hs1]]
    rw [show filterStep dist (.num m) startT endT (some p0, [p0]) p2 =
        (some p2, [p0, p2]) from by
      simp only [filterStep, h2, if_true, speedStep, ht2, hd2,
        Bool.and_self, hs2, Bool.false_eq_true, if_false, List.cons_append,
        List.nil_append]]
  · intro dist maxS startT endT lastP p acc hok h
    have hguard : (jsGt (timeDiffSec lastP.time p.time) (.num 0) &&
        jsGt (dist lastP.lat lastP.lon p.lat p.lon) (.num 0)) = false := by
      rcases h with ⟨tl, tc, hlt, hct, hle⟩ | hd0
      · have hq : ((tc : ℚ) - (tl : ℚ)) / 1000 ≤ 0 := by
          apply div_nonpos_of_nonpos_of_nonneg
          · have : ((tc - tl : Int) : ℚ) ≤ 0 := by exact_mod_cast hle
            push_cast at this
            linarith
          · norm_num
        have : jsGt (timeDiffSec lastP.time p.time) (.num 0) = false := by
          rw [hlt, hct]
          simp only [timeDiffSec, jsGt, jsLt]
          rw [decide_eq_false_iff_not]
          push_cast
          exact not_lt.mpr hq
        simp [this]
      · have : jsGt (dist lastP.lat lastP.lon p.lat p.lon) (.num 0) = false := by
          rw [hd0]
          simp [jsGt, jsLt]
        simp [this]
    simp only [filterStep, hok, if_true, speedStep, hguard,
      Bool.false_eq_true, if_false]

/-- C6 (witness): the anchor theorem applied to three concrete points with
a concrete distance function - the 1000 km jump to `w1` in one hour exceeds
the 100 km/h cap, the 1 km distance to `w2` over two hours does not, and
the filter keeps `w0` and `w2`. -/
theorem claim6_speed_filter_witness :
    filterPoints wDist (.num 100) none none [w0, w1, w2] = [w0, w2] := by
  apply claim6_speed_filter.1 wDist 100 none none w0 w1 w2
  · with_unfolding_all rfl
  · with_unfolding_all rfl
  · with_unfolding_all rfl
  · with_unfolding_all rfl
  · with_unfolding_all rfl
  · with_unfolding_all rfl
  · with_unfolding_all rfl
  · with_unfolding_all rfl
  · with_unfolding_all rfl

/-! ### Claim C7 -/

/-- `lastOr` on a singleton. -/
theorem lastOr_single {α : Type} (e : Option Int × α) (fb : Option α) :
    lastOr [e] fb = some e.2 := rfl

/-- `lastOr` ignores a leading entry when more entries follow. -/
theorem lastOr_cons_cons {α : Type} (e x : Option Int × α)
    (xs : List (Option Int × α)) (fb : Option α) :
    lastOr (e :: x :: xs) fb = lastOr (x :: xs) fb := by
  unfold lastOr
  rw [List.getLast?_cons_cons]

/-- `lastOr` on a nonempty list ignores the fallback. -/
theorem lastOr_congr_fallback {α : Type} (l : List (Option Int × α))
    (fb1 fb2 : Option α) (h : l ≠ []) : lastOr l fb1 = lastOr l fb2 := by
  unfold lastOr
  cases hx : l.getLast? with
  | some e => rfl
  | none => exact absurd (List.getLast?_eq_none_iff.mp hx) h

/-- Lookup after the scanning fold is last-write-wins: the value at key `k`
is the value of the last line contributing `k` (falling back to the initial
state when no line contributes `k`), in both keyed collections. -/
theorem foldl_scan_lookup :
    ∀ (lines : List String) (st : JsMap RmcFix × JsMap JsNum) (k : Option Int),
      mapGet (lines.foldl scanStep st).1 k =
        lastOr ((lines.filterMap rmcContrib).filter
          (fun e => decide (e.1 = k))) (mapGet st.1 k) ∧
      mapGet (lines.foldl scanStep st).2 k =
        lastOr ((lines.filterMap ggaContrib).filter
          (fun e => decide (e.1 = k))) (mapGet st.2 k) := by
  intro lines
  induction lines with
  | nil => intro st k; exact ⟨rfl, rfl⟩
  | cons l rest ih =>
    intro st k
    cases hp : parseNmeaSentence (jsTrim l) with
    | none =>
      have hr : rmcContrib l = none := by simp [rmcContrib, hp]
      have hg : ggaContrib l = none := by simp [ggaContrib, hp]
      have hs : scanStep st l = st := by simp [scanStep, hp]
      simp only [List.foldl_cons, hs, List.filterMap_cons, hr, hg]
      exact ih st k
    | some d =>
      cases d with
      | rmc valid lat lon time =>
        cases valid with
        | false =>
          have hr : rmcContrib l = none := by simp [rmcContrib, hp]
          have hg : ggaContrib l = none := by simp [ggaContrib, hp]
          have hs : scanStep st l = st := by simp [scanStep, hp]
          simp only [List.foldl_cons, hs, List.filterMap_cons, hr, hg]
          exact ih st k
        | true =>
          have hr : rmcContrib l = some (timeKeyOf time, ⟨lat, lon, time⟩) := by
            simp [rmcContrib, hp]
          have hg : ggaContrib l = none := by simp [ggaContrib, hp]
          have hs : scanStep st l =
              (mapSet st.1 (timeKeyOf time) ⟨lat, lon, time⟩, st.2) := by
            simp [scanStep, hp]
          simp only [List.foldl_cons, hs, List.filterMap_cons, hr, hg]
          have ihx := ih (mapSet st.1 (timeKeyOf time) ⟨lat, lon, time⟩, st.2) k
          refine ⟨?_, ihx.2⟩
          rw [ihx.1]
          by_cases hk : timeKeyOf time = k
          · subst hk
            simp only [List.filter_cons, decide_eq_true_eq,
              eq_self_iff_true, if_true]
            cases hflt : (rest.filterMap rmcContrib).filter
                (fun e => decide (e.1 = timeKeyOf time)) with
            | nil =>
              rw [lastOr_single]
              exact mapGet_set_self st.1 (timeKeyOf time) ⟨lat, lon, time⟩
            | cons x xs =>
              rw [lastOr_cons_cons]
              exact lastOr_congr_fallback _ _ _ (by simp)
          · simp only [List.filter_cons, decide_eq_false hk, Bool.false_eq_true,
              if_false]
            rw [mapGet_set_ne st.1 (timeKeyOf time) k _ hk]
      | gga alt time =>
        have hr : rmcContrib l = none := by simp [rmcContrib, hp]
        have hg : ggaContrib l = some (timeKeyOf time, alt) := by
          simp [ggaContrib, hp]
        have hs : scanStep st l = (st.1, mapSet st.2 (timeKeyOf time) alt) := by
          simp [scanStep, hp]
        simp only [List.foldl_cons, hs, List.filterMap_cons, hr, hg]
        have ihx := ih (st.1, mapSet st.2 (timeKeyOf time) alt) k
        refine ⟨ihx.1, ?_⟩
        rw [ihx.2]
        by_cases hk : timeKeyOf time = k
        · subst hk
          simp only [List.filter_cons, decide_eq_true_eq,
            eq_self_iff_true, if_true]
          cases hflt : (rest.filterMap ggaContrib).filter
              (fun e => decide (e.1 = timeKeyOf time)) with
          | nil =>
            rw [lastOr_single]
            exact mapGet_set_self st.2 (timeKeyOf time) alt
          | cons x xs =>
            rw [lastOr_cons_cons]
            exact lastOr_congr_fallback _ _ _ (by simp)
        · simp only [List.filter_cons, decide_eq_false hk, Bool.false_eq_true,
            if_false]
          rw [mapGet_set_ne st.2 (timeKeyOf time) k _ hk]

/-- `lastOr` with an empty fallback is the mapped last element. -/
theorem lastOr_none_eq_map_getLast {α : Type} (l : List (Option Int × α)) :
    lastOr l none = l.getLast?.map (fun e => e.2) := by
  unfold lastOr
  cases l.getLast? <;> rfl

/-- C7: merging is idempotent under duplicate lines - a file consisting of
a valid RMC line twice produces exactly one combined point - and, in
general, lookup in either keyed collection returns the value written by the
last line in file order that contributed that whole-second key
(last-write-wins for both the fix map and the altitude map). -/
theorem claim7_merge_idempotent_lww :
    (∀ (l : String) (lat lon : JsNum) (t : Option Int),
      '\n' ∉ l.data →
      parseNmeaSentence (jsTrim l) = some (.rmc true lat lon t) →
      combinedOf (jsSplit (l ++ "\n" ++ l) '\n') = combinedOf [l] ∧
      (combinedOf [l]).length = 1) ∧
    (∀ (lines : List String) (k : Option Int),
      mapGet (buildMaps lines).1 k = lastWriteAt rmcContrib k lines ∧
      mapGet (buildMaps lines).2 k = lastWriteAt ggaContrib k lines) := by
  constructor
  · intro l lat lon t hn hp
    have hsplit : jsSplit (l ++ "\n" ++ l) '\n' = [l, l] := by
      have hd : (l ++ "\n" ++ l).data = l.data ++ '\n' :: l.data := by
        simp [String.data_append]
      simp only [jsSplit, hd, splitOnChar_append_sep '\n' l.data l.data hn,
        splitOnChar_no_sep '\n' l.data hn, List.map_cons, List.map_nil,
        stringMk_data]
    rw [hsplit]
    have hmaps : buildMaps [l, l] = buildMaps [l] := by
      simp only [buildMaps, List.foldl_cons, List.foldl_nil]
      have h1 : scanStep ([], []) l =
          ([(timeKeyOf t, ⟨lat, lon, t⟩)], []) := by
        simp [scanStep, hp, mapSet]
      rw [h1]
      have h2 : scanStep ([(timeKeyOf t, ⟨lat, lon, t⟩)], []) l =
          ([(timeKeyOf t, ⟨lat, lon, t⟩)], []) := by
        simp [scanStep, hp, mapSet]
      rw [h2]
    constructor
    · simp only [combinedOf, hmaps]
    · have h1 : buildMaps [l] = ([(timeKeyOf t, ⟨lat, lon, t⟩)], []) := by
        simp [buildMaps, scanStep, hp, mapSet]
      simp [combinedOf, h1]
  · intro lines k
    have h := foldl_scan_lookup lines ([], []) k
    constructor
    · rw [show buildMaps lines = lines.foldl scanStep ([], []) from rfl, h.1]
      simp only [lastWriteAt]
      exact lastOr_none_eq_map_getLast _
    · rw [show buildMaps lines = lines.foldl scanStep ([], []) from rfl, h.2]
      simp only [lastWriteAt]
      exact lastOr_none_eq_map_getLast _

/-- C7 (witness): the idempotency half applied to the concrete RMC line of
`c1Input`. -/
theorem claim7_witness :
    combinedOf (jsSplit (c1Rmc ++ "\n" ++ c1Rmc) '\n') = combinedOf [c1Rmc] ∧
    (combinedOf [c1Rmc]).length = 1 := by
  apply claim7_merge_idempotent_lww.1 c1Rmc (JsNum.num (71 / 2))
    (JsNum.num (279 / 2)) (some 1735732800000)
  · with_unfolding_all decide
  · with_unfolding_all rfl

/-! ### Claim C3 -/

/-- The serialization loop either returns a document or throws the
`toISOString` `RangeError`, and it throws exactly when some point in the
list has an invalid time. -/
theorem renderPoints_total :
    ∀ (ps : List GpsPoint) (acc : String),
      (∃ g, renderPoints acc ps = .ok g) ∨
      (renderPoints acc ps = .error .invalidTimeValue ∧
        ∃ p ∈ ps, p.time = none) := by
  intro ps
  induction ps with
  | nil => intro acc; exact Or.inl ⟨acc ++ gpxFooter, rfl⟩
  | cons p rest ih =>
    intro acc
    cases ht : p.time with
    | none =>
      refine Or.inr ⟨?_, p, List.mem_cons_self _ _, ht⟩
      simp [renderPoints, ht]
    | some t =>
      rcases ih (acc ++ trkptXml p t) with ⟨g, hg⟩ | ⟨he, q, hq, hqt⟩
      · exact Or.inl ⟨g, by simp [renderPoints, ht, hg]⟩
      · refine Or.inr ⟨by simp [renderPoints, ht, he], q,
          List.mem_cons_of_mem _ hq, hqt⟩

/-- C3 (amended): `convertToGpx` returns a complete GPX string or throws
one of its two explicit errors - except that when a point with an invalid
timestamp survives filtering, serialization throws a `RangeError` from
`toISOString`; internal decode failures are otherwise absorbed by skipping
the sentence or point. -/
theorem claim3_amended :
    ∀ (dist : DistFn) (fc sf st et : String),
      (∃ g, convertToGpx dist fc sf st et = .ok g) ∨
      convertToGpx dist fc sf st et = .error .noValidPoints ∨
      convertToGpx dist fc sf st et = .error .noneAfterFilter ∨
      (convertToGpx dist fc sf st et = .error .invalidTimeValue ∧
        ∃ p ∈ filterPoints dist (maxSpeedOf sf) (parseJstToUtc st)
            (parseJstToUtc et) (sortPoints (combinedOf (jsSplit fc '\n'))),
          p.time = none) := by
  intro dist fc sf st et
  by_cases hc : (combinedOf (jsSplit fc '\n')).isEmpty
  · refine Or.inr (Or.inl ?_)
    simp [convertToGpx, hc]
  · by_cases hf : (filterPoints dist (maxSpeedOf sf) (parseJstToUtc st)
        (parseJstToUtc et) (sortPoints (combinedOf (jsSplit fc '\n')))).isEmpty
    · refine Or.inr (Or.inr (Or.inl ?_))
      simp [convertToGpx, hc, hf]
    · have hconv : convertToGpx dist fc sf st et =
          renderPoints gpxHeader (filterPoints dist (maxSpeedOf sf)
            (parseJstToUtc st) (parseJstToUtc et)
            (sortPoints (combinedOf (jsSplit fc '\n')))) := by
        simp [convertToGpx, hc, hf]
      rcases renderPoints_total (filterPoints dist (maxSpeedOf sf)
          (parseJstToUtc st) (parseJstToUtc et)
          (sortPoints (combinedOf (jsSplit fc '\n')))) gpxHeader with
        ⟨g, hg⟩ | ⟨he, hex⟩
      · exact Or.inl ⟨g, hconv.trans hg⟩
      · exact Or.inr (Or.inr (Or.inr ⟨hconv.trans he, hex⟩))

/-- C3 (counterexample): on a status-`A` RMC line whose date field does not
parse, `convertToGpx` raises the `toISOString` `RangeError` - a third
exception, distinct from the two documented errors. -/
theorem claim3_counterexample :
    convertToGpx distZero c3Input "none" "" "" =
      .error JsError.invalidTimeValue ∧
    JsError.invalidTimeValue ≠ JsError.noValidPoints ∧
    JsError.invalidTimeValue ≠ JsError.noneAfterFilter := by
  refine ⟨?_, by decide, by decide⟩
  with_unfolding_all rfl

/-! ### Helper lemmas: characters of the rendered fragments -/

theorem mem_natDigsAux_isDigit :
    ∀ (fuel n : Nat) (c : Char), c ∈ natDigsAux fuel n → c.isDigit = true := by
  have hdig : ∀ m : Nat, m < 10 → (Nat.digitChar m).isDigit = true := by decide
  intro fuel
  induction fuel with
  | zero => intro n c h; simp [natDigsAux] at h
  | succ fuel ih =>
    intro n c h
    rw [natDigsAux] at h
    by_cases hn : n < 10
    · rw [if_pos hn] at h
      simp only [List.mem_singleton] at h
      exact h ▸ hdig n hn
    · rw [if_neg hn] at h
      rcases List.mem_append.mp h with h | h
      · exact ih (n / 10) c h
      · simp only [List.mem_singleton] at h
        exact h ▸ hdig (n % 10) (Nat.mod_lt n (by omega))

theorem mem_padNat_isDigit {w n : Nat} {c : Char}
    (h : c ∈ (padNat w n).data) : c.isDigit = true := by
  simp only [padNat] at h
  rcases List.mem_append.mp h with h | h
  · rw [List.eq_of_mem_replicate h]; decide
  · exact mem_natDigsAux_isDigit _ n c h

theorem isDigit_ne_lt_e {c : Char} (h : c.isDigit = true) :
    c ≠ '<' ∧ c ≠ 'e' := by
  constructor <;> rintro rfl <;> exact absurd h (by decide)

theorem mem_toISO_ne_lt_e {t : Int} {c : Char}
    (h : c ∈ (toISOStringJs t).data) : c ≠ '<' ∧ c ≠ 'e' := by
  simp only [toISOStringJs, String.data_append] at h
  have hpiece : ∀ {w n : Nat}, c ∈ (padNat w n).data → c ≠ '<' ∧ c ≠ 'e' :=
    fun hm => isDigit_ne_lt_e (mem_padNat_isDigit hm)
  have hys : c ∈ (if 0 ≤ (civilFromDays (Int.fdiv t 86400000)).1 ∧
        (civilFromDays (Int.fdiv t 86400000)).1 ≤ 9999 then
        padNat 4 (civilFromDays (Int.fdiv t 86400000)).1.toNat
      else if (civilFromDays (Int.fdiv t 86400000)).1 < 0 then
        "-" ++ padNat 6 (-(civilFromDays (Int.fdiv t 86400000)).1).toNat
      else "+" ++ padNat 6 (civilFromDays (Int.fdiv t 86400000)).1.toNat).data →
      c ≠ '<' ∧ c ≠ 'e' := by
    intro hm
    split at hm
    · exact hpiece hm
    · split at hm
      · rw [String.data_append] at hm
        rcases List.mem_append.mp hm with hm | hm
        · simp only [List.mem_singleton, show ("-" : String).data = ['-']
            from rfl] at hm
          subst hm; exact ⟨by decide, by decide⟩
        · exact hpiece hm
      · rw [String.data_append] at hm
        rcases List.mem_append.mp hm with hm | hm
        · simp only [List.mem_singleton, show ("+" : String).data = ['+']
            from rfl] at hm
          subst hm; exact ⟨by decide, by decide⟩
        · exact hpiece hm
  rcases List.mem_append.mp h with h | h
  rotate_left
  · simp only [show ("Z" : String).data = ['Z'] from rfl,
      List.mem_singleton] at h
    subst h; exact ⟨by decide, by decide⟩
  rcases List.mem_append.mp h with h | h
  rotate_left
  · exact hpiece h
  rcases List.mem_append.mp h with h | h
  rotate_left
  · simp only [show ("." : String).data = ['.'] from rfl,
      List.mem_singleton] at h
    subst h; exact ⟨by decide, by decide⟩
  rcases List.mem_append.mp h with h | h
  rotate_left
  · exact hpiece h
  rcases List.mem_append.mp h with h | h
  rotate_left
  · simp only [show (":" : String).data = [':'] from rfl,
      List.mem_singleton] at h
    subst h; exact ⟨by decide, by decide⟩
  rcases List.mem_append.mp h with h | h
  rotate_left
  · exact hpiece h
  rcases List.mem_append.mp h with h | h
  rotate_left
  · simp only [show (":" : String).data = [':'] from rfl,
      List.mem_singleton] at h
    subst h; exact ⟨by decide, by decide⟩
  rcases List.mem_append.mp h with h | h
  rotate_left
  · exact hpiece h
  rcases List.mem_append.mp h with h | h
  rotate_left
  · simp only [show ("T" : String).data = ['T'] from rfl,
      List.mem_singleton] at h
    subst h; exact ⟨by decide, by decide⟩
  rcases List.mem_append.mp h with h | h
  rotate_left
  · exact hpiece h
  rcases List.mem_append.mp h with h | h
  rotate_left
  · simp only [show ("-" : String).data = ['-'] from rfl,
      List.mem_singleton] at h
    subst h; exact ⟨by decide, by decide⟩
  rcases List.mem_append.mp h with h | h
  rotate_left
  · exact hpiece h
  rcases List.mem_append.mp h with h | h
  · exact hys h
  · simp only [show ("-" : String).data = ['-'] from rfl,
      List.mem_singleton] at h
    subst h; exact ⟨by decide, by decide⟩

theorem mem_ratToFixed_ne_lt_e {f : Nat} {q : ℚ} {c : Char}
    (h : c ∈ (ratToFixed f q).data) : c ≠ '<' ∧ c ≠ 'e' := by
  simp only [ratToFixed, String.data_append] at h
  have hds : ∀ x ∈ List.replicate (f + 1 - (natDigs
      ((Rat.floor (|q| * (10 : ℚ) ^ f + 1 / 2)).toNat)).length) '0' ++
      natDigs ((Rat.floor (|q| * (10 : ℚ) ^ f + 1 / 2)).toNat),
      Char.isDigit x = true := by
    intro x hx
    rcases List.mem_append.mp hx with hx | hx
    · rw [List.eq_of_mem_replicate hx]; decide
    · exact mem_natDigsAux_isDigit _ _ x hx
  rcases List.mem_append.mp h with h | h
  · rcases List.mem_append.mp h with h | h
    · split at h
      · simp only [show ("-" : String).data = ['-'] from rfl,
          List.mem_singleton] at h
        subst h; exact ⟨by decide, by decide⟩
      · simp [show ("" : String).data = [] from rfl] at h
    · exact isDigit_ne_lt_e (hds c (List.mem_of_mem_take h))
  · split at h
    · simp [show ("" : String).data = [] from rfl] at h
    · rw [String.data_append] at h
      rcases List.mem_append.mp h with h | h
      · simp only [show ("." : String).data = ['.'] from rfl,
          List.mem_singleton] at h
        subst h; exact ⟨by decide, by decide⟩
      · exact isDigit_ne_lt_e (hds c (List.mem_of_mem_drop h))

theorem mem_toFixedJs_ne_lt_e {f : Nat} {x : JsNum} {c : Char}
    (h : c ∈ (toFixedJs f x).data) : c ≠ '<' ∧ c ≠ 'e' := by
  cases x with
  | nan =>
    simp only [toFixedJs, show ("NaN" : String).data = ['N', 'a', 'N']
      from rfl] at h
    fin_cases h <;> exact ⟨by decide, by decide⟩
  | inf =>
    simp only [toFixedJs, show ("Infinity" : String).data =
      ['I', 'n', 'f', 'i', 'n', 'i', 't', 'y'] from rfl] at h
    fin_cases h <;> exact ⟨by decide, by decide⟩
  | ninf =>
    simp only [toFixedJs, show ("-Infinity" : String).data =
      ['-', 'I', 'n', 'f', 'i', 'n', 'i', 't', 'y'] from rfl] at h
    fin_cases h <;> exact ⟨by decide, by decide⟩
  | num q => exact mem_ratToFixed_ne_lt_e h

/-! ### Helper lemmas: absence of an `<ele>` tag -/

theorem noLtE_cons (c : Char) (l : List Char) :
    noLtE (c :: l) = (!((c == '<') && (l.head? == some 'e')) && noLtE l) := rfl

theorem noLtE_append {a b : List Char} (ha : noLtE a = true)
    (hb : noLtE b = true) (hbe : b.head? ≠ some 'e') :
    noLtE (a ++ b) = true := by
  induction a with
  | nil => simpa using hb
  | cons c a ih =>
    rw [noLtE_cons, Bool.and_eq_true] at ha
    obtain ⟨h1, h2⟩ := ha
    rw [List.cons_append, noLtE_cons, ih h2, Bool.and_true]
    cases a with
    | nil =>
      simp only [List.nil_append]
      have hbeq : (b.head? == some 'e') = false := by
        cases hh : b.head? with
        | none => rfl
        | some x =>
          have hx : x ≠ 'e' := fun hx => hbe (by rw [hh, hx])
          simp [hx]
      rw [hbeq, Bool.and_false, Bool.not_false]
    | cons c2 rest =>
      simpa only [List.cons_append, List.head?_cons] using h1

theorem noLtE_of_no_lt {l : List Char} (h : ∀ c ∈ l, c ≠ '<') :
    noLtE l = true := by
  induction l with
  | nil => rfl
  | cons c rest ih =>
    rw [noLtE_cons]
    have hc : (c == '<') = false := by
      simp [h c (List.mem_cons_self _ _)]
    rw [hc, Bool.false_and, Bool.not_false, Bool.true_and]
    exact ih fun x hx => h x (List.mem_cons_of_mem _ hx)

theorem head?_ne_e_of_all {l : List Char} (h : ∀ c ∈ l, c ≠ 'e') :
    l.head? ≠ some 'e' := by
  cases l with
  | nil => simp
  | cons c rest =>
    simp only [List.head?_cons, ne_eq, Option.some.injEq]
    exact h c (List.mem_cons_self _ _)

theorem hasSub_eleTag_false {l : List Char} (h : noLtE l = true) :
    hasSub eleTag l = false := by
  induction l with
  | nil => rfl
  | cons c rest ih =>
    rw [noLtE_cons, Bool.and_eq_true] at h
    obtain ⟨h1, h2⟩ := h
    rw [hasSub, ih h2, Bool.or_false]
    show List.isPrefixOf ['<', 'e', 'l', 'e', '>'] (c :: rest) = false
    cases rest with
    | nil =>
      by_cases hc : c = '<' <;> simp [List.isPrefixOf, hc]
    | cons c2 rest2 =>
      by_cases hc : c = '<'
      · by_cases hc2 : c2 = 'e'
        · exfalso
          rw [hc, hc2] at h1
          simp at h1
        · have h2e : (('e' : Char) == c2) = false :=
            beq_eq_false_iff_ne.mpr fun hx => hc2 hx.symm
          simp [List.isPrefixOf, h2e]
      · have hce : (('<' : Char) == c) = false :=
          beq_eq_false_iff_ne.mpr fun hx => hc hx.symm
        simp [List.isPrefixOf, hce]

/-- Joining segments that each avoid `'<'` followed by `'e'` and do not
start with `'e'` yields a list with the same two properties. -/
theorem noLtE_join : ∀ (segs : List (List Char)),
    (∀ s ∈ segs, noLtE s = true ∧ s.head? ≠ some 'e') →
    noLtE segs.flatten = true ∧ segs.flatten.head? ≠ some 'e' := by
  intro segs
  induction segs with
  | nil => intro _; exact ⟨rfl, by simp⟩
  | cons s rest ih =>
    intro h
    have hs := h s (List.mem_cons_self _ _)
    have hrest := ih fun x hx => h x (List.mem_cons_of_mem _ hx)
    rw [List.flatten_cons]
    constructor
    · exact noLtE_append hs.1 hrest.1 hrest.2
    · cases hcs : s with
      | nil => simpa using hrest.2
      | cons c cs =>
        simp only [List.cons_append, List.head?_cons, ne_eq,
          Option.some.injEq]
        have := hs.2
        rw [hcs] at this
        simpa using this

/-- The `<trkpt>` block of a point without altitude contains no adjacent
`'<'`, `'e'` pair, and does not start with `'e'`. -/
theorem trkptXml_noEle {p : GpsPoint} {t : Int} (h : p.alt = none) :
    noLtE (trkptXml p t).data = true ∧
    (trkptXml p t).data.head? ≠ some 'e' := by
  have hdata : (trkptXml p t).data =
      List.flatten ["  <trkpt lat=\"".data, (toFixedJs 6 p.lat).data,
        "\" lon=\"".data, (toFixedJs 6 p.lon).data, "\">\n".data,
        "    <time>".data, (toISOStringJs t).data,
        "</time>\n  </trkpt>\n".data] := by
    simp [trkptXml, h, String.data_append, List.flatten, List.append_assoc]
  rw [hdata]
  apply noLtE_join
  intro s hs
  have hfix : ∀ (f : Nat) (x : JsNum), noLtE (toFixedJs f x).data = true ∧
      (toFixedJs f x).data.head? ≠ some 'e' :=
    fun f x => ⟨noLtE_of_no_lt fun c hc => (mem_toFixedJs_ne_lt_e hc).1,
      head?_ne_e_of_all fun c hc => (mem_toFixedJs_ne_lt_e hc).2⟩
  have hiso : noLtE (toISOStringJs t).data = true ∧
      (toISOStringJs t).data.head? ≠ some 'e' :=
    ⟨noLtE_of_no_lt fun c hc => (mem_toISO_ne_lt_e hc).1,
      head?_ne_e_of_all fun c hc => (mem_toISO_ne_lt_e hc).2⟩
  fin_cases hs
  · exact ⟨by decide, by decide⟩
  · exact hfix 6 p.lat
  · exact ⟨by decide, by decide⟩
  · exact hfix 6 p.lon
  · exact ⟨by decide, by decide⟩
  · exact ⟨by decide, by decide⟩
  · exact hiso
  · exact ⟨by decide, by decide⟩

/-- If every remaining point lacks an altitude and the accumulator avoids
adjacent `'<'`, `'e'`, a successful serialization avoids them too. -/
theorem renderPoints_noEle :
    ∀ (ps : List GpsPoint) (acc : String),
      (∀ p ∈ ps, p.alt = none) → noLtE acc.data = true →
      ∀ g, renderPoints acc ps = .ok g → noLtE g.data = true := by
  intro ps
  induction ps with
  | nil =>
    intro acc _ hacc g hg
    simp only [renderPoints, Except.ok.injEq] at hg
    subst hg
    rw [String.data_append]
    exact noLtE_append hacc (by decide) (by decide)
  | cons p rest ih =>
    intro acc hall hacc g hg
    cases ht : p.time with
    | none => simp [renderPoints, ht] at hg
    | some t =>
      simp only [renderPoints, ht] at hg
      have hp := trkptXml_noEle (hall p (List.mem_cons_self _ _)) (t := t)
      refine ih (acc ++ trkptXml p t)
        (fun q hq => hall q (List.mem_cons_of_mem _ hq)) ?_ g hg
      rw [String.data_append]
      exact noLtE_append hacc hp.1 hp.2

/-- Membership in an insertion-sorted list. -/
theorem mem_insertSorted {p q : GpsPoint} :
    ∀ {l : List GpsPoint}, q ∈ insertSorted p l → q = p ∨ q ∈ l := by
  intro l
  induction l with
  | nil => intro h; simpa [insertSorted] using h
  | cons x rest ih =>
    intro h
    simp only [insertSorted] at h
    split at h
    · rcases List.mem_cons.mp h with rfl | h
      · exact Or.inr (List.mem_cons_self _ _)
      · rcases ih h with h | h
        · exact Or.inl h
        · exact Or.inr (List.mem_cons_of_mem _ h)
    · rcases List.mem_cons.mp h with rfl | h
      · exact Or.inl rfl
      · exact Or.inr h

/-- Membership in the sorted list implies membership in the input. -/
theorem mem_sortPoints {q : GpsPoint} :
    ∀ {l : List GpsPoint}, q ∈ sortPoints l → q ∈ l := by
  have haux : ∀ (l : List GpsPoint) (acc : List GpsPoint),
      q ∈ l.foldl (fun a p => insertSorted p a) acc → q ∈ acc ∨ q ∈ l := by
    intro l
    induction l with
    | nil => intro acc h; exact Or.inl h
    | cons x rest ih =>
      intro acc h
      rcases ih (insertSorted x acc) h with h | h
      · rcases mem_insertSorted h with rfl | h
        · exact Or.inr (List.mem_cons_self _ _)
        · exact Or.inl h
      · exact Or.inr (List.mem_cons_of_mem _ h)
    
  intro l h
  rcases haux l [] h with h | h
  · simp at h
  · exact h

/-- Every point accepted by the filtering loop comes from the input list
(or from the accumulator it started with). -/
theorem mem_filterPoints {q : GpsPoint} (dist : DistFn) (maxS : JsNum)
    (startT endT : Option Int) :
    ∀ (pts : List GpsPoint) (st : Option GpsPoint × List GpsPoint),
      q ∈ (pts.foldl (filterStep dist maxS startT endT) st).2 →
      q ∈ st.2 ∨ q ∈ pts := by
  intro pts
  induction pts with
  | nil => intro st h; exact Or.inl h
  | cons p rest ih =>
    intro st h
    rcases ih (filterStep dist maxS startT endT st p) h with h | h
    · have hstep : ∀ x ∈ (filterStep dist maxS startT endT st p).2,
          x ∈ st.2 ∨ x = p := by
        intro x hx
        have haccept : x ∈ (st.2 ++ [p]) → x ∈ st.2 ∨ x = p := by
          intro hm
          rcases List.mem_append.mp hm with hm | hm
          · exact Or.inl hm
          · exact Or.inr (by simpa using hm)
        simp only [filterStep] at hx
        by_cases hok : timeOkB startT endT p.time = true
        · rw [if_pos hok] at hx
          simp only [speedStep] at hx
          cases hst : st.1 with
          | none =>
            simp only [hst] at hx
            exact haccept hx
          | some lastP =>
            simp only [hst] at hx
            by_cases hg : (jsGt (timeDiffSec lastP.time p.time)
                (JsNum.num 0) && jsGt (dist lastP.lat lastP.lon p.lat p.lon)
                (JsNum.num 0)) = true
            · rw [if_pos hg] at hx
              by_cases hsp : jsGt (jsMul (jsDiv
                  (dist lastP.lat lastP.lon p.lat p.lon)
                  (timeDiffSec lastP.time p.time)) (JsNum.num 3600))
                  maxS = true
              · rw [if_pos hsp] at hx
                exact Or.inl hx
              · rw [if_neg hsp] at hx
                exact haccept hx
            · rw [if_neg hg] at hx
              exact haccept hx
        · rw [if_neg hok] at hx
          exact Or.inl hx
      rcases hstep q h with h | rfl
      · exact Or.inl h
      · exact Or.inr (List.mem_cons_self _ _)
    · exact Or.inr (List.mem_cons_of_mem _ h)

/-! ### Claim C2 -/

/-- Under the two hypotheses on the input lines, every key of the fix map
is a whole second at or after 2000-01-01, and every key of the altitude map
is the NaN key or a whole second before 2000-01-01. -/
theorem buildMaps_key_ranges :
    ∀ (lines : List String) (st : JsMap RmcFix × JsMap JsNum),
      (∀ l ∈ lines, rmcYears2000OkB l = true) →
      (∀ l ∈ lines, ggaBefore2000B l = true) →
      (∀ e ∈ st.1, ∃ k0 : Int, e.1 = some k0 ∧ 946684800 ≤ k0) →
      (∀ e ∈ st.2, e.1 = none ∨ ∃ k0 : Int, e.1 = some k0 ∧ k0 < 946684800) →
      (∀ e ∈ (lines.foldl scanStep st).1,
        ∃ k0 : Int, e.1 = some k0 ∧ 946684800 ≤ k0) ∧
      (∀ e ∈ (lines.foldl scanStep st).2,
        e.1 = none ∨ ∃ k0 : Int, e.1 = some k0 ∧ k0 < 946684800) := by
  intro lines
  induction lines with
  | nil => intro st _ _ h1 h2; exact ⟨h1, h2⟩
  | cons l rest ih =>
    intro st hra hga h1 h2
    have hrest_a : ∀ x ∈ rest, rmcYears2000OkB x = true :=
      fun x hx => hra x (List.mem_cons_of_mem _ hx)
    have hrest_g : ∀ x ∈ rest, ggaBefore2000B x = true :=
      fun x hx => hga x (List.mem_cons_of_mem _ hx)
    rw [List.foldl_cons]
    cases hp : parseNmeaSentence (jsTrim l) with
    | none =>
      have hs : scanStep st l = st := by simp [scanStep, hp]
      rw [hs]
      exact ih st hrest_a hrest_g h1 h2
    | some d =>
      cases d with
      | rmc valid lat lon time =>
        cases valid with
        | false =>
          have hs : scanStep st l = st := by simp [scanStep, hp]
          rw [hs]
          exact ih st hrest_a hrest_g h1 h2
        | true =>
          have hline := hra l (List.mem_cons_self _ _)
          rw [rmcYears2000OkB, hp] at hline
          cases htime : time with
          | none => rw [htime] at hline; exact absurd hline (by simp)
          | some t =>
            rw [htime] at hline
            simp only [decide_eq_true_eq] at hline
            have hkey : ∃ k0 : Int, timeKeyOf time = some k0 ∧
                946684800 ≤ k0 := by
              refine ⟨Int.fdiv t 1000, by simp [timeKeyOf, htime], ?_⟩
              rw [Int.fdiv_eq_ediv t (by omega)]
              rw [Int.le_ediv_iff_mul_le (by omega)]
              omega
            have hs : scanStep st l =
                (mapSet st.1 (timeKeyOf time) ⟨lat, lon, time⟩, st.2) := by
              simp [scanStep, hp]
            rw [hs]
            refine ih _ hrest_a hrest_g ?_ h2
            exact mapSet_forall h1 (by simpa using hkey)
      | gga alt time =>
        have hline := hga l (List.mem_cons_self _ _)
        rw [ggaBefore2000B, hp] at hline
        have hkey : timeKeyOf time = none ∨
            ∃ k0 : Int, timeKeyOf time = some k0 ∧ k0 < 946684800 := by
          cases htime : time with
          | none => exact Or.inl (by simp [timeKeyOf])
          | some t =>
            rw [htime] at hline
            simp only [decide_eq_true_eq] at hline
            refine Or.inr ⟨Int.fdiv t 1000, by simp [timeKeyOf], ?_⟩
            rw [Int.fdiv_eq_ediv t (by omega)]
            rw [Int.ediv_lt_iff_lt_mul (by omega)]
            omega
        have hs : scanStep st l =
            (st.1, mapSet st.2 (timeKeyOf time) alt) := by
          simp [scanStep, hp]
        rw [hs]
        refine ih _ hrest_a hrest_g h1 ?_
        exact mapSet_forall h2 (by simpa using hkey)

/-- Under the two hypotheses on the input lines, no altitude is ever
attached during the merge. -/
theorem combined_alt_none (lines : List String)
    (hra : ∀ l ∈ lines, rmcYears2000OkB l = true)
    (hga : ∀ l ∈ lines, ggaBefore2000B l = true) :
    ∀ p ∈ combinedOf lines, p.alt = none := by
  intro p hp
  have hk := buildMaps_key_ranges lines ([], []) hra hga (by simp) (by simp)
  simp only [combinedOf, List.mem_map] at hp
  obtain ⟨e, he, rfl⟩ := hp
  obtain ⟨k0, hk0, hge⟩ := hk.1 e he
  show mapGet (buildMaps lines).2 e.1 = none
  apply mapGet_eq_none
  intro x hx hcon
  rcases hk.2 x hx with hnone | ⟨k1, hk1, hlt⟩
  · rw [hnone, hk0] at hcon
    exact Option.noConfusion hcon
  · rw [hk1, hk0] at hcon
    have : k1 = k0 := by injection hcon
    omega

/-- C2 (amended): for every input file whose valid RMC fixes all carry
timestamps decoding to valid instants in 2000-2099, and whose GGA records'
placeholder-based instants all fall before 2000-01-01 (as is the case
whenever a GGA time-of-day field totals less than 3155760000 seconds),
every combined point has absent altitude - the GGA merge key is built from
the 1899-12-31 placeholder date - and the serialized GPX contains no
`<ele>` element at all. -/
theorem claim2_amended :
    ∀ (dist : DistFn) (fc sf st et : String),
      (jsSplit fc '\n').all rmcYears2000OkB = true →
      (jsSplit fc '\n').all ggaBefore2000B = true →
      (∀ p ∈ combinedOf (jsSplit fc '\n'), p.alt = none) ∧
      (∀ g, convertToGpx dist fc sf st et = .ok g →
        hasSub eleTag g.data = false) := by
  intro dist fc sf st et ha hb
  have ha' : ∀ l ∈ jsSplit fc '\n', rmcYears2000OkB l = true :=
    List.all_eq_true.mp ha
  have hb' : ∀ l ∈ jsSplit fc '\n', ggaBefore2000B l = true :=
    List.all_eq_true.mp hb
  have hnone := combined_alt_none _ ha' hb'
  refine ⟨hnone, ?_⟩
  intro g hg
  by_cases hc : (combinedOf (jsSplit fc '\n')).isEmpty
  · rw [show convertToGpx dist fc sf st et = .error .noValidPoints from by
      simp [convertToGpx, hc]] at hg
    exact Except.noConfusion hg
  · by_cases hf : (filterPoints dist (maxSpeedOf sf) (parseJstToUtc st)
        (parseJstToUtc et) (sortPoints (combinedOf (jsSplit fc '\n')))).isEmpty
    · rw [show convertToGpx dist fc sf st et = .error .noneAfterFilter from by
        simp [convertToGpx, hc, hf]] at hg
      exact Except.noConfusion hg
    · have hconv : convertToGpx dist fc sf st et =
          renderPoints gpxHeader (filterPoints dist (maxSpeedOf sf)
            (parseJstToUtc st) (parseJstToUtc et)
            (sortPoints (combinedOf (jsSplit fc '\n')))) := by
        simp [convertToGpx, hc, hf]
      rw [hconv] at hg
      have hall : ∀ q ∈ filterPoints dist (maxSpeedOf sf) (parseJstToUtc st)
          (parseJstToUtc et) (sortPoints (combinedOf (jsSplit fc '\n'))),
          q.alt = none := by
        intro q hq
        rcases mem_filterPoints dist (maxSpeedOf sf) (parseJstToUtc st)
          (parseJstToUtc et) _ (none, []) hq with hq0 | hq1
        · simp at hq0
        · exact hnone q (mem_sortPoints hq1)
      have hne := renderPoints_noEle _ gpxHeader hall (by decide) g hg
      exact hasSub_eleTag_false hne

/-- C2 (counterexample): all valid RMC fixes of `c2Input` are dated in
2000-2099 (here 2001-05-28), yet the crafted GGA sentence's enormous
seconds field pushes its placeholder-based key forward to the very same
whole second, so the altitude IS attached and the serialized GPX contains
an `<ele>` element. -/
theorem claim2_counterexample :
    (jsSplit c2Input '\n').all rmcYears2000OkB = true ∧
    (combinedOf (jsSplit c2Input '\n')).map GpsPoint.alt =
      [some (JsNum.num 100)] ∧
    convertToGpx distZero c2Input "none" "" "" =
      .ok (gpxHeader ++ trkptXml c2Point 991011200000 ++ gpxFooter) ∧
    hasSub eleTag (trkptXml c2Point 991011200000).data = true := by
  have hsplit : jsSplit c2Input '\n' = [c2Rmc, c2Gga] := by
    with_unfolding_all rfl
  have h1 : parseNmeaSentence (jsTrim c2Rmc) = some (.rmc true
      (.num (71 / 2)) (.num (279 / 2)) (some 991011200000)) := by
    with_unfolding_all rfl
  have h2 : parseNmeaSentence (jsTrim c2Gga) =
      some (.gga (.num 100) (some 991011200000)) := by
    with_unfolding_all rfl
  have hcomb : combinedOf [c2Rmc, c2Gga] = [c2Point] := by
    simp only [combinedOf, buildMaps, List.foldl_cons, List.foldl_nil,
      scanStep, h1, h2, eq_self_iff_true, if_true]
    rw [show mapSet ([] : JsMap RmcFix) (timeKeyOf (some 991011200000))
        ⟨JsNum.num (71 / 2), JsNum.num (279 / 2), some 991011200000⟩ =
        [(timeKeyOf (some 991011200000),
          ⟨JsNum.num (71 / 2), JsNum.num (279 / 2), some 991011200000⟩)]
      from rfl]
    rw [List.map_cons, List.map_nil]
    rw [show mapSet ([] : JsMap JsNum) (timeKeyOf (some 991011200000))
        (JsNum.num 100) = [(timeKeyOf (some 991011200000), JsNum.num 100)]
      from rfl]
    rw [show mapGet [(timeKeyOf (some 991011200000), JsNum.num 100)]
        (timeKeyOf (some 991011200000)) =
        mapGet (mapSet ([] : JsMap JsNum) (timeKeyOf (some 991011200000))
          (JsNum.num 100)) (timeKeyOf (some 991011200000)) from rfl,
      mapGet_set_self]
    rfl
  refine ⟨?_, ?_, ?_, ?_⟩
  · rw [hsplit]
    have ha : rmcYears2000OkB c2Rmc = true := by
      rw [rmcYears2000OkB, h1]
      decide
    have hb : rmcYears2000OkB c2Gga = true := by
      rw [rmcYears2000OkB, h2]
    simp [ha, hb]
  · rw [hsplit, hcomb]
    with_unfolding_all rfl
  · simp only [convertToGpx, hsplit, hcomb]
    with_unfolding_all rfl
  · with_unfolding_all rfl

/-- C2 (witness): the amended theorem applied to the two-line input of
claim C1, whose GGA placeholder instant lies in 1899. -/
theorem claim2_amended_witness :
    (jsSplit c1Input '\n').all rmcYears2000OkB = true ∧
    (jsSplit c1Input '\n').all ggaBefore2000B = true ∧
    (∀ p ∈ combinedOf (jsSplit c1Input '\n'), p.alt = none) := by
  have ha : (jsSplit c1Input '\n').all rmcYears2000OkB = true := by
    with_unfolding_all rfl
  have hb : (jsSplit c1Input '\n').all ggaBefore2000B = true := by
    with_unfolding_all rfl
  exact ⟨ha, hb, (claim2_amended distZero c1Input "none" "" "" ha hb).1⟩

/-! ### Claim C1 -/

/-- C1 (code evaluation at the failing input): on the spec's two-line file,
`convertToGpx` emits exactly one `<trkpt>` with the expected coordinates
and time but NO `<ele>` element: the GGA altitude is never joined, because
the GGA merge key is the placeholder-dated second -2209032000 (in 1899)
while the RMC key is 1735732800 (in 2025). -/
theorem claim1_missing_ele :
    ∀ dist : DistFn,
      convertToGpx dist c1Input "none" "" "" =
        .ok (gpxHeader ++ trkptXml c1Point 1735732800000 ++ gpxFooter) ∧
      trkptXml c1Point 1735732800000 =
        "  <trkpt lat=\"35.500000\" lon=\"139.500000\">\n    <time>2025-01-01T12:00:00.000Z</time>\n  </trkpt>\n" ∧
      c1Point.alt = none ∧
      hasSub eleTag
        (gpxHeader ++ trkptXml c1Point 1735732800000 ++ gpxFooter).data =
        false := by
  intro dist
  have hsplit : jsSplit c1Input '\n' = [c1Rmc, c1Gga] := by
    with_unfolding_all rfl
  have h1 : parseNmeaSentence (jsTrim c1Rmc) = some (.rmc true
      (.num (71 / 2)) (.num (279 / 2)) (some 1735732800000)) := by
    with_unfolding_all rfl
  have h2 : parseNmeaSentence (jsTrim c1Gga) =
      some (.gga (.num 100) (some (-2209032000000))) := by
    with_unfolding_all rfl
  have hne : timeKeyOf (some (-2209032000000)) ≠
      timeKeyOf (some 1735732800000) := by
    with_unfolding_all decide
  have hcomb : combinedOf [c1Rmc, c1Gga] = [c1Point] := by
    simp only [combinedOf, buildMaps, List.foldl_cons, List.foldl_nil,
      scanStep, h1, h2, eq_self_iff_true, if_true]
    rw [show mapSet ([] : JsMap RmcFix) (timeKeyOf (some 1735732800000))
        ⟨JsNum.num (71 / 2), JsNum.num (279 / 2), some 1735732800000⟩ =
        [(timeKeyOf (some 1735732800000),
          ⟨JsNum.num (71 / 2), JsNum.num (279 / 2), some 1735732800000⟩)]
      from rfl]
    rw [List.map_cons, List.map_nil]
    rw [show mapSet ([] : JsMap JsNum) (timeKeyOf (some (-2209032000000)))
        (JsNum.num 100) = [(timeKeyOf (some (-2209032000000)), JsNum.num 100)]
      from rfl]
    rw [show mapGet [(timeKeyOf (some (-2209032000000)), JsNum.num 100)]
        (timeKeyOf (some 1735732800000)) =
        mapGet (mapSet ([] : JsMap JsNum) (timeKeyOf (some (-2209032000000)))
          (JsNum.num 100)) (timeKeyOf (some 1735732800000)) from rfl,
      mapGet_set_ne _ _ _ _ hne]
    rfl
  refine ⟨?_, ?_, rfl, ?_⟩
  · simp only [convertToGpx, hsplit, hcomb]
    with_unfolding_all rfl
  · with_unfolding_all rfl
  · have hblock := trkptXml_noEle (p := c1Point) (t := 1735732800000) rfl
    apply hasSub_eleTag_false
    rw [String.data_append, String.data_append]
    exact noLtE_append (noLtE_append (by decide) hblock.1 hblock.2)
      (by decide) (by decide)
